import Mathlib

/-!
# Verification of the LaTeX-macro-to-HTML conversion pipeline

This file embeds the string-processing core of the resume repository
(`scripts/latex-parser.mjs`, `scripts/html-transformers.mjs`,
`scripts/html-helpers.mjs`, `scripts/utils.mjs`, `scripts/converter.mjs`,
`scripts/html-template.mjs`, `scripts/config.mjs`) as executable Lean
functions over `List Char`, and proves the specified properties about them.

JavaScript strings are modelled as `List Char`.  Global regex replacement
(`String.replace` with the `g` flag) is modelled by a left-to-right scan
that, at each position, either applies a matcher (consuming the matched
text and emitting the replacement) or copies one character and moves on —
exactly the semantics of the JS regex engine for the patterns used here,
none of which require backtracking across a committed match.  Fuel equal to
the length of the input makes every scan structurally recursive, so all
definitions compute by kernel reduction.
-/

set_option maxRecDepth 16000
set_option maxHeartbeats 2000000

namespace Resume

/-! ## Basic character-list utilities -/

/-- ASCII whitespace as trimmed by JavaScript `String.trim`. -/
def isWS (c : Char) : Bool :=
  c = ' ' || c = '\t' || c = '\n' || c = '\r' || c = '\x0b' || c = '\x0c'

/-- JavaScript `String.trim` on a character list. -/
def trimStr (l : List Char) : List Char :=
  ((l.dropWhile isWS).reverse.dropWhile isWS).reverse

/-- A word character in the sense of the JS regex class `\w`. -/
def isWordChar (c : Char) : Bool := c.isAlphanum || c = '_'

/-- `isPre p t` holds when `p` is an initial segment of `t`. -/
def isPre : List Char → List Char → Bool
  | [], _ => true
  | _ :: _, [] => false
  | p :: ps, c :: cs => p == c && isPre ps cs

/-- Strip the initial segment `p` from `t`, if present. -/
def dropPre : List Char → List Char → Option (List Char)
  | [], t => some t
  | _ :: _, [] => none
  | p :: ps, c :: cs => if c = p then dropPre ps cs else none

/-- Longest initial run of characters different from `stop`
(the JS regex fragment `[^stop]*`). -/
def spanNe (stop : Char) : List Char → (List Char × List Char)
  | [] => ([], [])
  | c :: cs =>
    if c = stop then ([], c :: cs)
    else
      let p := spanNe stop cs
      (c :: p.1, p.2)

/-- Longest initial run of word characters (the JS regex fragment `\w*`). -/
def spanW : List Char → (List Char × List Char)
  | [] => ([], [])
  | c :: cs =>
    if isWordChar c then
      let p := spanW cs
      (c :: p.1, p.2)
    else ([], c :: cs)

theorem dropPre_eq_some {p t r : List Char} :
    dropPre p t = some r ↔ t = p ++ r := by
  induction p generalizing t with
  | nil => simp [dropPre]
  | cons a ps ih =>
    cases t with
    | nil => simp [dropPre]
    | cons c cs =>
      by_cases h : c = a
      · subst h; simp [dropPre, ih]
      · simp [dropPre, h]

theorem dropPre_append (p r : List Char) : dropPre p (p ++ r) = some r := by
  exact dropPre_eq_some.mpr rfl

theorem isPre_iff {p t : List Char} : isPre p t = true ↔ ∃ r, t = p ++ r := by
  induction p generalizing t with
  | nil => simp [isPre]
  | cons a ps ih =>
    cases t with
    | nil => simp [isPre]
    | cons c cs =>
      simp only [isPre, Bool.and_eq_true, beq_iff_eq, ih, List.cons_append,
        List.cons.injEq]
      constructor
      · rintro ⟨h1, r, h2⟩; exact ⟨r, h1.symm, h2⟩
      · rintro ⟨r, h1, h2⟩; exact ⟨h1.symm, r, h2⟩

/-- If `s` and `p` disagree somewhere inside `s` (neither extends the
other), then stripping `p` fails on `s ++ r` no matter what `r` is. -/
theorem dropPre_none_of_mismatch {p s : List Char} (r : List Char)
    (h1 : isPre s p = false) (h2 : isPre p s = false) :
    dropPre p (s ++ r) = none := by
  induction p generalizing s with
  | nil => simp [isPre] at h2
  | cons a ps ih =>
    cases s with
    | nil => simp [isPre] at h1
    | cons c cs =>
      simp only [isPre, Bool.and_eq_false_iff, beq_eq_false_iff_ne, ne_eq] at h1 h2
      by_cases hca : c = a
      · subst hca
        simp only [List.cons_append, dropPre, if_pos rfl]
        rcases h1 with h1 | h1
        · exact absurd rfl h1
        · rcases h2 with h2 | h2
          · exact absurd rfl h2
          · exact ih h1 h2
      · simp [dropPre, List.cons_append, hca]

/-! ## Generic global-replacement scan -/

/-- Fuelled left-to-right global replacement: at each position, the matcher
`m` either matches (returning the replacement text and the rest of the
input after the match) or the character is copied unchanged. -/
def gRepF (m : List Char → Option (List Char × List Char)) :
    Nat → List Char → List Char
  | _, [] => []
  | 0, t => t
  | fuel + 1, c :: cs =>
    match m (c :: cs) with
    | some (rep, rest) => rep ++ gRepF m fuel rest
    | none => c :: gRepF m fuel cs

/-- Global replacement with adequate fuel (JS `String.replace` with `g`). -/
def gRep (m : List Char → Option (List Char × List Char)) (t : List Char) :
    List Char :=
  gRepF m t.length t

/-- A matcher consumes at least one character whenever it fires. -/
def Consumes (m : List Char → Option (List Char × List Char)) : Prop :=
  ∀ t rep rest, m t = some (rep, rest) → rest.length < t.length

theorem gRepF_fuel {m : List Char → Option (List Char × List Char)}
    (hm : Consumes m) :
    ∀ f g t, t.length ≤ f → t.length ≤ g → gRepF m f t = gRepF m g t := by
  intro f
  induction f with
  | zero =>
    intro g t hf _
    cases t with
    | nil => cases g <;> rfl
    | cons c cs => simp at hf
  | succ f ih =>
    intro g t hf hg
    cases t with
    | nil => cases g <;> rfl
    | cons c cs =>
      cases g with
      | zero => simp at hg
      | succ g =>
        simp only [gRepF]
        cases hmt : m (c :: cs) with
        | none =>
          have h1 : cs.length ≤ f := Nat.le_of_succ_le_succ hf
          have h2 : cs.length ≤ g := Nat.le_of_succ_le_succ hg
          rw [ih g cs h1 h2]
        | some pr =>
          obtain ⟨rep, rest⟩ := pr
          have hlt := hm _ _ _ hmt
          have h1 : rest.length ≤ f :=
            Nat.le_of_succ_le_succ (Nat.le_trans hlt hf)
          have h2 : rest.length ≤ g :=
            Nat.le_of_succ_le_succ (Nat.le_trans hlt hg)
          show rep ++ gRepF m f rest = rep ++ gRepF m g rest
          rw [ih g rest h1 h2]

theorem gRep_nil (m : List Char → Option (List Char × List Char)) :
    gRep m [] = [] := rfl

theorem gRep_cons_none {m : List Char → Option (List Char × List Char)}
    {c : Char} {cs : List Char} (h : m (c :: cs) = none) :
    gRep m (c :: cs) = c :: gRep m cs := by
  simp only [gRep, List.length_cons, gRepF, h]

theorem gRep_cons_some {m : List Char → Option (List Char × List Char)}
    (hm : Consumes m) {c : Char} {cs rep rest : List Char}
    (h : m (c :: cs) = some (rep, rest)) :
    gRep m (c :: cs) = rep ++ gRep m rest := by
  have hlt := hm _ _ _ h
  simp only [gRep, List.length_cons, gRepF, h]
  rw [gRepF_fuel hm cs.length rest.length rest
    (Nat.le_of_succ_le_succ hlt) (Nat.le_refl _)]

/-- Matcher for a fixed literal pattern replaced by a fixed literal
(a JS regex with no metacharacters). -/
def litMatcher (pat rep : List Char) (t : List Char) :
    Option (List Char × List Char) :=
  (dropPre pat t).map (fun rest => (rep, rest))

theorem litMatcher_consumes {pat rep : List Char} (h : pat ≠ []) :
    Consumes (litMatcher pat rep) := by
  intro t r rest hm
  simp only [litMatcher, Option.map_eq_some'] at hm
  obtain ⟨a, ha, hfa⟩ := hm
  injection hfa with h1 h2
  have ht : t = pat ++ a := dropPre_eq_some.mp ha
  subst ht
  have hp : 0 < pat.length := List.length_pos.mpr h
  rw [← h2]
  simp only [List.length_append]
  omega

/-! ## Heading promotion (`promoteHeadings`, html-transformers.mjs) -/

/-- Matcher for the JS regex `<h⟨d⟩(\b[^>]*)>`, replacing the tag name by
`h⟨e⟩` and keeping the attribute text: the word boundary `\b` after the
digit requires the next character to be a non-word character. -/
def openTagMatcher (d e : Char) (t : List Char) :
    Option (List Char × List Char) :=
  match dropPre ['<', 'h', d] t with
  | none => none
  | some r =>
    match r with
    | [] => none
    | c :: _ =>
      if isWordChar c then none
      else
        let p := spanNe '>' r
        match p.2 with
        | '>' :: rest => some ('<' :: 'h' :: e :: p.1 ++ ['>'], rest)
        | _ => none

/-- `promoteHeadings` from html-transformers.mjs: first rewrites `h4`
tags to `h3`, then rewrites `h3` tags to `h2` (each as a pair of global
replacements on open and close tags, in source order). -/
def promoteHeadings (html : List Char) : List Char :=
  let r1 := gRep (litMatcher "</h4>".toList "</h3>".toList)
    (gRep (openTagMatcher '4' '3') html)
  gRep (litMatcher "</h3>".toList "</h2>".toList)
    (gRep (openTagMatcher '3' '2') r1)

/-- C1: refuted by the code as written.  The claim (and the source's own
comment "Promote h4 to h3 first to avoid double promotion") require that
distinct original heading levels stay distinct, but because the `h4→h3`
rewrite runs *before* the `h3→h2` rewrite on the same string, an original
`h4` is promoted twice: a source with levels h2, h3, h4 collapses to h2,
h2, h2.  (No `h4` survives, but the levels are not kept distinct.) -/
theorem promoteHeadings_collapses_h3_h4 :
    promoteHeadings "<h2>a</h2><h3>b</h3><h4>c</h4>".toList
      = "<h2>a</h2><h2>b</h2><h2>c</h2>".toList := by decide

/-! ## LaTeX macro argument extraction (`parseLatexMacro`, latex-parser.mjs) -/

/-- The literal text `\⟨name⟩{` searched for by the outer regex of
`parseLatexMacro` (`new RegExp("\\\\" + macroName + "\\{", "g")`). -/
def headerOf (name : List Char) : List Char := '\\' :: (name ++ ['{'])

/-- The inner `while` loop of `parseLatexMacro` while inside an argument:
`d` is the current `braceCount` (≥ 1), `cur` the accumulated `currentArg`
in reverse.  On `{` the depth is incremented, on `}` decremented; when the
depth returns to 0 the argument is complete and pushed after `trim`.
Returns the trimmed argument and the remaining text after its closing
brace, or `none` when the text ends first (the enclosing invocation is
then incomplete and will be dropped). -/
def argPhase : List Char → Nat → List Char → Option (List Char × List Char)
  | [], _, _ => none
  | c :: cs, d, cur =>
    if c = '{' then argPhase cs (d + 1) ('{' :: cur)
    else if c = '}' then
      if d ≤ 1 then some (trimStr cur.reverse, cs)
      else argPhase cs (d - 1) ('}' :: cur)
    else argPhase cs d (c :: cur)

/-- The `while (pos < content.length && content[pos] !== '{') pos++` skip
between arguments, followed by the `pos++` of the next loop iteration that
consumes the found `{`.  `none` when the text ends without a `{`. -/
def skipPhase : List Char → Option (List Char)
  | [] => none
  | c :: cs => if c = '{' then some cs else skipPhase cs

/-- One execution of the argument-collection loop of `parseLatexMacro`,
starting just after the opening `{` of the first argument (`braceCount`
initialised to 1).  Returns the list of trimmed arguments together with
the number of characters of `rest` covered by the JS `fullMatch`
substring, which extends to just past the `{` located by the skip that
follows the final argument (or to the end of the text).  Returns `none`
when the text ends before all `n` arguments are complete — the invocation
is then omitted from the results. -/
def runInv : Nat → List Char → Option (List (List Char) × Nat)
  | 0, _ => some ([], 0)
  | n + 1, rest =>
    match argPhase rest 1 [] with
    | none => none
    | some (arg, rem1) =>
      match skipPhase rem1 with
      | none =>
        if n = 0 then some ([arg], rest.length) else none
      | some rem2 =>
        if n = 0 then some ([arg], rest.length - rem2.length)
        else
          match runInv n rem2 with
          | none => none
          | some (args, fm) =>
            some (arg :: args, (rest.length - rem2.length) + fm)

/-- Fuelled scan of `regex.exec` over the content: each occurrence of the
header `\name{` starts an invocation; the search resumes just after the
header (`lastIndex` is not advanced by the inner walk).  Invocations whose
arguments all complete contribute the tuple `fullMatch :: args`. -/
def parseLatexMacroF (hdr : List Char) (argCount : Nat) :
    Nat → List Char → List (List (List Char))
  | _, [] => []
  | 0, _ => []
  | fuel + 1, c :: cs =>
    if isPre hdr (c :: cs) then
      let rest := (c :: cs).drop hdr.length
      match runInv argCount rest with
      | some (args, fmLen) =>
        ((hdr ++ rest.take fmLen) :: args) :: parseLatexMacroF hdr argCount fuel rest
      | none => parseLatexMacroF hdr argCount fuel rest
    else parseLatexMacroF hdr argCount fuel cs

/-- `parseLatexMacro` from latex-parser.mjs. -/
def parseLatexMacro (name : List Char) (argCount : Nat)
    (content : List Char) : List (List (List Char)) :=
  parseLatexMacroF (headerOf name) argCount content.length content

theorem runInv_length {n : Nat} {rest : List Char} {args : List (List Char)}
    {fm : Nat} (h : runInv n rest = some (args, fm)) : args.length = n := by
  induction n generalizing rest args fm with
  | zero =>
    simp only [runInv, Option.some.injEq, Prod.mk.injEq] at h
    rw [← h.1]
    rfl
  | succ n ih =>
    simp only [runInv] at h
    split at h
    · exact absurd h (by simp)
    · split at h
      · split at h
        · rename_i hn
          simp only [Option.some.injEq, Prod.mk.injEq] at h
          rw [← h.1, hn]
          rfl
        · exact absurd h (by simp)
      · split at h
        · rename_i hn
          simp only [Option.some.injEq, Prod.mk.injEq] at h
          rw [← h.1, hn]
          rfl
        · split at h
          · exact absurd h (by simp)
          · rename_i args2 fm2 h3
            simp only [Option.some.injEq, Prod.mk.injEq] at h
            rw [← h.1]
            simp [ih h3]

theorem parseLatexMacroF_tuples {hdr : List Char} {argCount : Nat} :
    ∀ fuel t tup, tup ∈ parseLatexMacroF hdr argCount fuel t →
      tup.length = argCount + 1 := by
  intro fuel
  induction fuel with
  | zero =>
    intro t tup h
    cases t <;> simp [parseLatexMacroF] at h
  | succ fuel ih =>
    intro t tup h
    cases t with
    | nil => simp [parseLatexMacroF] at h
    | cons c cs =>
      simp only [parseLatexMacroF] at h
      split at h
      · split at h
        · rename_i args fmLen hrun
          rcases List.mem_cons.mp h with h1 | h1
          · subst h1
            simp [runInv_length hrun]
          · exact ih _ _ h1
        · exact ih _ _ h
      · exact ih _ _ h

/-- C4: the extractor never returns a partial invocation: every tuple in
the result of `parseLatexMacro` consists of the full matched text followed
by exactly `argCount` collected arguments; an invocation cut short by the
end of the text is simply omitted (and, the function being total, no error
is raised). -/
theorem parseLatexMacro_tuples_complete (name : List Char) (argCount : Nat)
    (content : List Char) :
    ∀ tup ∈ parseLatexMacro name argCount content,
      tup.length = argCount + 1 := by
  intro tup h
  exact parseLatexMacroF_tuples _ _ _ h

/-- Witness for C4 at a concrete input: the text contains one complete
3-argument invocation of `\m` and one invocation truncated after two
arguments; exactly the complete one is returned (with its 3 arguments),
the truncated one is dropped. -/
theorem parseLatexMacro_tuples_complete_witness :
    (parseLatexMacro "m".toList 3 "\\m{a}{b}{c}!\\m{y}{z}".toList
        = [["\\m{a}{b}{c}!\\m\x7b".toList, "a".toList, "b".toList, "c".toList]])
    ∧ ["\\m{a}{b}{c}!\\m\x7b".toList, "a".toList, "b".toList, "c".toList].length
        = 3 + 1 := by
  refine ⟨by decide, ?_⟩
  exact parseLatexMacro_tuples_complete "m".toList 3
    "\\m{a}{b}{c}!\\m{y}{z}".toList _ (by decide)

/-! ## Occurrence utilities -/

/-- `p` occurs as a contiguous substring of `t`. -/
def occursB (p : List Char) : List Char → Bool
  | [] => isPre p []
  | c :: cs => isPre p (c :: cs) || occursB p cs

/-- Number of positions of `t` at which `p` occurs. -/
def countOcc (p : List Char) : List Char → Nat
  | [] => 0
  | c :: cs => (if isPre p (c :: cs) then 1 else 0) + countOcc p cs

theorem isPre_append_self (p r : List Char) : isPre p (p ++ r) = true := by
  induction p with
  | nil => rfl
  | cons a ps ih => simp [isPre, ih]

theorem isPre_of_isPre_append {a b t : List Char}
    (h : isPre (a ++ b) t = true) : isPre a t = true := by
  induction a generalizing t with
  | nil => rfl
  | cons c cs ih =>
    cases t with
    | nil => simp [isPre] at h
    | cons d ds =>
      simp only [List.cons_append, isPre, Bool.and_eq_true] at h ⊢
      exact ⟨h.1, ih h.2⟩

theorem isPre_of_dropPre {p t r : List Char} (h : dropPre p t = some r) :
    isPre p t = true := by
  rw [dropPre_eq_some.mp h]
  exact isPre_append_self p r

theorem dropPre_cons_ne {a c : Char} {ps cs : List Char} (h : c ≠ a) :
    dropPre (a :: ps) (c :: cs) = none := by
  simp [dropPre, h]

/-! ## Metadata extraction (`extractMetadata`, utils.mjs) -/

/-- Attempt, at the current position, the regex `\⟨cmd⟩{([^}]+)}` used by
`extractMetadata`: the literal command header followed by a non-empty run
of non-`}` characters and the closing `}`; returns the capture group. -/
def tryCmdAt (cmd t : List Char) : Option (List Char) :=
  match dropPre (headerOf cmd) t with
  | none => none
  | some r =>
    match spanNe '}' r with
    | ([], _) => none
    | (_ :: _, []) => none
    | (w₀ :: w, _ :: _) => some (w₀ :: w)

/-- First match of `\⟨cmd⟩{([^}]+)}` in the content (JS `String.match`
without the `g` flag scans positions left to right). -/
def findCmdArg (cmd : List Char) : List Char → Option (List Char)
  | [] => none
  | c :: cs =>
    match tryCmdAt cmd (c :: cs) with
    | some w => some w
    | none => findCmdArg cmd cs

/-- The metadata record produced by `extractMetadata`. -/
structure DocMetadata where
  title : List Char
  author : List Char
  date : List Char
deriving DecidableEq

/-- `extractMetadata` from utils.mjs.  The expression
`new Date().toISOString().split('T')[0]` reads the system clock; the
current date is passed in as `today`. -/
def extractMetadata (today content : List Char) : DocMetadata :=
  { title := (findCmdArg "title".toList content).getD "Untitled Document".toList
    author := (findCmdArg "author".toList content).getD "Unknown Author".toList
    date := (findCmdArg "date".toList content).getD today }

theorem spanNe_append (stop : Char) (s r : List Char)
    (h : ∀ c ∈ s, ¬ c = stop) :
    spanNe stop (s ++ stop :: r) = (s, stop :: r) := by
  induction s with
  | nil => simp [spanNe]
  | cons a as ih =>
    have ha : ¬ a = stop := h a (by simp)
    have ih2 := ih (fun c hc => h c (by simp [hc]))
    simp only [List.cons_append, spanNe, if_neg ha, List.append_eq, ih2]

theorem tryCmdAt_here {cmd w : List Char} (r : List Char) (hw : w ≠ [])
    (h : ∀ c ∈ w, ¬ c = '}') :
    tryCmdAt cmd (headerOf cmd ++ (w ++ '}' :: r)) = some w := by
  cases w with
  | nil => exact absurd rfl hw
  | cons a as =>
    have h2 := spanNe_append '}' (a :: as) r h
    unfold tryCmdAt
    rw [dropPre_append]
    dsimp only
    rw [h2]

theorem findCmdArg_append_none (cmd x r : List Char)
    (h : ∀ i, i < x.length → tryCmdAt cmd (x.drop i ++ r) = none) :
    findCmdArg cmd (x ++ r) = findCmdArg cmd r := by
  induction x with
  | nil => rfl
  | cons c cs ih =>
    have h0 := h 0 (by simp)
    simp only [List.drop_zero] at h0
    simp only [List.cons_append] at h0 ⊢
    simp only [findCmdArg, h0]
    exact ih (fun i hi => by
      have hh := h (i + 1) (by simpa using Nat.succ_lt_succ hi)
      simpa using hh)

/-- Scanning skips over a region each of whose suffixes disagrees with the
command header before the region ends. -/
theorem findCmdArg_skip (cmd x : List Char)
    (hx : ∀ i, i < x.length →
      isPre (x.drop i) (headerOf cmd) = false
      ∧ isPre (headerOf cmd) (x.drop i) = false) (r : List Char) :
    findCmdArg cmd (x ++ r) = findCmdArg cmd r :=
  findCmdArg_append_none cmd x r (fun i hi => by
    have h := hx i hi
    simp [tryCmdAt, dropPre_none_of_mismatch r h.1 h.2])

theorem findCmdArg_noBS (cmd u : List Char) (hu : '\\' ∉ u) (r : List Char) :
    findCmdArg cmd (u ++ r) = findCmdArg cmd r := by
  induction u with
  | nil => rfl
  | cons c cs ih =>
    have hc : c ≠ '\\' := by
      intro hh
      exact hu (by simp [hh])
    have hne : tryCmdAt cmd (c :: (cs ++ r)) = none := by
      simp [tryCmdAt, headerOf, dropPre_cons_ne hc]
    simp only [List.cons_append, findCmdArg, List.append_eq, hne]
    exact ih (fun hh => hu (by simp [hh]))

theorem findCmdArg_here (cmd w r : List Char) (hw : w ≠ [])
    (h : ∀ c ∈ w, ¬ c = '}') :
    findCmdArg cmd (headerOf cmd ++ (w ++ '}' :: r)) = some w := by
  have htry := @tryCmdAt_here cmd w r hw h
  simp only [headerOf, List.cons_append] at htry ⊢
  simp only [findCmdArg, htry]

theorem findCmdArg_some_occurs {cmd content w : List Char}
    (h : findCmdArg cmd content = some w) :
    ∃ i, i < content.length ∧ isPre (headerOf cmd) (content.drop i) = true := by
  induction content with
  | nil => simp [findCmdArg] at h
  | cons c cs ih =>
    simp only [findCmdArg] at h
    cases htry : tryCmdAt cmd (c :: cs) with
    | some v =>
      refine ⟨0, by simp, ?_⟩
      simp only [List.drop_zero]
      unfold tryCmdAt at htry
      cases hd : dropPre (headerOf cmd) (c :: cs) with
      | none => rw [hd] at htry; simp at htry
      | some r => exact isPre_of_dropPre hd
    | none =>
      rw [htry] at h
      obtain ⟨i, hi, hp⟩ := ih h
      exact ⟨i + 1, by simpa using Nat.succ_lt_succ hi, hp⟩

/-- C5 counterexample: a text *containing* `\title{Jane Doe}` and
`\author{J. Doe}` and no `\date` command for which `extractMetadata` does
not return title "Jane Doe" — the regex takes the *first* `\title` match,
here `\title{X}`. -/
theorem extractMetadata_containment_fails :
    occursB "\\title{Jane Doe}".toList
        "\\title{X}\\title{Jane Doe}\\author{J. Doe}".toList = true
    ∧ occursB "\\author{J. Doe}".toList
        "\\title{X}\\title{Jane Doe}\\author{J. Doe}".toList = true
    ∧ occursB "\\date".toList
        "\\title{X}\\title{Jane Doe}\\author{J. Doe}".toList = false
    ∧ (extractMetadata "2026-10-11".toList
        "\\title{X}\\title{Jane Doe}\\author{J. Doe}".toList).title
        ≠ "Jane Doe".toList := by
  refine ⟨by decide, by decide, by decide, by decide⟩

/-- C5 (amended): (i) for every source text in which
`\title{Jane Doe}\author{J. Doe}` is the *first* command material (no
backslash occurs before it or after it), extraction returns title
"Jane Doe", author "J. Doe" and the current date; (ii) whenever the text
lacks `\title` (resp. `\author`) the title (resp. author) falls back to
the fixed default. -/
theorem extractMetadata_amended :
    (∀ today u w, '\\' ∉ u → '\\' ∉ w →
      extractMetadata today
          (u ++ ("\\title{Jane Doe}\\author{J. Doe}".toList ++ w))
        = ⟨"Jane Doe".toList, "J. Doe".toList, today⟩)
    ∧ (∀ today content,
        (∀ i, i < content.length →
          isPre "\\title".toList (content.drop i) = false) →
        (extractMetadata today content).title = "Untitled Document".toList)
    ∧ (∀ today content,
        (∀ i, i < content.length →
          isPre "\\author".toList (content.drop i) = false) →
        (extractMetadata today content).author = "Unknown Author".toList) := by
  refine ⟨?_, ?_, ?_⟩
  · intro today u w hu hw
    have htitle : findCmdArg "title".toList
        (u ++ ("\\title{Jane Doe}\\author{J. Doe}".toList ++ w))
        = some "Jane Doe".toList := by
      rw [findCmdArg_noBS _ u hu]
      have hsplit : "\\title{Jane Doe}\\author{J. Doe}".toList ++ w
          = headerOf "title".toList
            ++ ("Jane Doe".toList ++ '}' :: ("\\author{J. Doe}".toList ++ w)) := by
        rfl
      rw [hsplit]
      exact findCmdArg_here _ _ _ (by decide) (by decide)
    have hauthor : findCmdArg "author".toList
        (u ++ ("\\title{Jane Doe}\\author{J. Doe}".toList ++ w))
        = some "J. Doe".toList := by
      rw [findCmdArg_noBS _ u hu]
      have hsplit : "\\title{Jane Doe}\\author{J. Doe}".toList ++ w
          = "\\title{Jane Doe}".toList
            ++ (headerOf "author".toList ++ ("J. Doe".toList ++ '}' :: w)) := by
        rfl
      rw [hsplit]
      rw [findCmdArg_skip _ _ (by decide)]
      exact findCmdArg_here _ _ _ (by decide) (by decide)
    have hdate : findCmdArg "date".toList
        (u ++ ("\\title{Jane Doe}\\author{J. Doe}".toList ++ w))
        = none := by
      rw [findCmdArg_noBS _ u hu]
      have hsplit : "\\title{Jane Doe}\\author{J. Doe}".toList ++ w
          = "\\title{Jane Doe}\\author{J. Doe}".toList ++ (w ++ []) := by
        simp
      rw [hsplit, findCmdArg_skip _ _ (by decide), findCmdArg_noBS _ w hw]
      rfl
    unfold extractMetadata
    rw [htitle, hauthor, hdate]
    rfl
  · intro today content hno
    cases hfind : findCmdArg "title".toList content with
    | none =>
      unfold extractMetadata
      rw [hfind]
      rfl
    | some v =>
      obtain ⟨i, hi, hp⟩ := findCmdArg_some_occurs hfind
      have : isPre "\\title".toList (content.drop i) = true := by
        have hsplit : headerOf "title".toList
            = "\\title".toList ++ ['{'] := by rfl
        rw [hsplit] at hp
        exact isPre_of_isPre_append hp
      rw [hno i hi] at this
      exact absurd this (by simp)
  · intro today content hno
    cases hfind : findCmdArg "author".toList content with
    | none =>
      unfold extractMetadata
      rw [hfind]
      rfl
    | some v =>
      obtain ⟨i, hi, hp⟩ := findCmdArg_some_occurs hfind
      have : isPre "\\author".toList (content.drop i) = true := by
        have hsplit : headerOf "author".toList
            = "\\author".toList ++ ['{'] := by rfl
        rw [hsplit] at hp
        exact isPre_of_isPre_append hp
      rw [hno i hi] at this
      exact absurd this (by simp)

/-- Witness for C5 (amended) at concrete inputs. -/
theorem extractMetadata_amended_witness :
    extractMetadata "2026-01-01".toList
        ("A. ".toList ++ ("\\title{Jane Doe}\\author{J. Doe}".toList ++ " B".toList))
      = ⟨"Jane Doe".toList, "J. Doe".toList, "2026-01-01".toList⟩
    ∧ (extractMetadata "2026-01-01".toList "no commands here".toList).title
      = "Untitled Document".toList
    ∧ (extractMetadata "2026-01-01".toList "no commands here".toList).author
      = "Unknown Author".toList := by
  refine ⟨extractMetadata_amended.1 _ _ _ (by decide) (by decide),
    extractMetadata_amended.2.1 _ _ (by decide),
    extractMetadata_amended.2.2 _ _ (by decide)⟩

/-! ## Hyperlink helpers (`parseHrefCommand`, `hrefToAnchor`, html-helpers.mjs) -/

/-- Matcher at the current position for `\href\{([^}]+)\}\{([^}]+)\}`. -/
def hrefMatchAt (t : List Char) : Option (List Char × List Char) :=
  match dropPre "\\href\x7b".toList t with
  | none => none
  | some r =>
    match spanNe '}' r with
    | ([], _) => none
    | (_ :: _, []) => none
    | (u₀ :: us, _ :: r2) =>
      match r2 with
      | '{' :: r3 =>
        match spanNe '}' r3 with
        | ([], _) => none
        | (_ :: _, []) => none
        | (v₀ :: vs, _ :: _) => some (u₀ :: us, v₀ :: vs)
      | _ => none

/-- `String.match` scan of `parseHrefCommand`: first occurrence of the
`\href` pattern, returning `(url, text)`. -/
def hrefFirst : List Char → Option (List Char × List Char)
  | [] => none
  | c :: cs =>
    match hrefMatchAt (c :: cs) with
    | some p => some p
    | none => hrefFirst cs

/-- Matcher for the global replace `\uline\{([^}]+)\}` → `$1`. -/
def ulineMatcher (t : List Char) : Option (List Char × List Char) :=
  match dropPre "\\uline\x7b".toList t with
  | none => none
  | some r =>
    match spanNe '}' r with
    | ([], _) => none
    | (_ :: _, []) => none
    | (w₀ :: ws, _ :: rest) => some (w₀ :: ws, rest)

/-- Matcher for the end-anchored replace `\uline\{([^}]*)$` → `$1`:
fires only when no `}` follows before the end of the string. -/
def ulineTailMatcher (t : List Char) : Option (List Char × List Char) :=
  match dropPre "\\uline\x7b".toList t with
  | none => none
  | some r => if r.contains '}' then none else some (r, [])

/-- `parseHrefCommand` from html-helpers.mjs: first `\href` match with the
underline sub-commands stripped from the display text. -/
def parseHrefCommand (hrefString : List Char) :
    Option (List Char × List Char) :=
  match hrefFirst hrefString with
  | none => none
  | some (url, text) =>
    some (url, gRep ulineTailMatcher (gRep ulineMatcher text))

/-- `hrefToAnchor` from html-helpers.mjs. -/
def hrefToAnchor (hrefString : List Char) (makeBold : Bool) : List Char :=
  if occursB "\\href\x7b".toList hrefString = false then
    if makeBold then "<strong>".toList ++ hrefString ++ "</strong>".toList
    else hrefString
  else
    match parseHrefCommand hrefString with
    | none =>
      if makeBold then "<strong>".toList ++ hrefString ++ "</strong>".toList
      else hrefString
    | some (url, text) =>
      let content :=
        if makeBold then "<strong>".toList ++ text ++ "</strong>".toList
        else text
      "<a href=\"".toList ++ url
        ++ "\" target=\"_blank\" rel=\"noopener noreferrer\">".toList
        ++ content ++ "</a>".toList

/-! ## Trio heading restructuring (`processTrioHeadings`,
html-transformers.mjs) -/

/-- The trio macro marker span. -/
def trioMarker : List Char :=
  "<span class=\"macro macro-resumeTrioHeading\"></span>".toList

/-- The lookahead `(?=(<ul|<span|<\/div|<\/p))` delimiting the lazy body. -/
def trioStop (l : List Char) : Bool :=
  isPre "<ul".toList l || isPre "<span".toList l
    || isPre "</div".toList l || isPre "</p".toList l

/-- Lazy `[\s\S]*?` scan: shortest body (possibly empty) up to the first
position where `stop` holds; the stopping text is left unconsumed
(a lookahead).  `none` when no such position exists — the regex then has
no match starting here. -/
def lazyTo (stop : List Char → Bool) : List Char → Option (List Char × List Char)
  | [] => if stop [] then some ([], []) else none
  | c :: cs =>
    if stop (c :: cs) then some ([], c :: cs)
    else (lazyTo stop cs).map (fun p => (c :: p.1, p.2))

/-- Replacement emitted by the trio callback for an extracted tuple
`[fullMatch, title, tech, linkRaw]`.  The callback destructures
`[, title, tech, linkRaw]`; tuples produced by `extractMacroMatches`
always have exactly four entries (`parseLatexMacro_tuples_complete`), so
the `getD` defaults are never read on pipeline inputs. -/
def trioRep (parsed : List (List Char)) : List Char :=
  "\n<div class=\"trio\">\n  <div class=\"trio-title\"><strong>".toList
    ++ trimStr (parsed.getD 1 [])
    ++ "</strong></div>\n  <div class=\"trio-tech\"><em>".toList
    ++ trimStr (parsed.getD 2 [])
    ++ "</em></div>\n  <div class=\"trio-link\">".toList
    ++ hrefToAnchor (parsed.getD 3 []) false
    ++ "</div>\n</div>".toList

/-- Fuelled scan of the global trio regex
`<span class="macro macro-resumeTrioHeading"><\/span>([\s\S]*?)(?=(<ul|<span|<\/div|<\/p))`:
at a marker occurrence whose body reaches a lookahead, the callback
consumes `trioMatches[trioIdx++]`; a missing tuple (`!parsed`) reproduces
the matched text `m` unchanged. -/
def trioLoopF (ts : List (List (List Char))) :
    Nat → Nat → List Char → List Char
  | _, _, [] => []
  | 0, _, t => t
  | fuel + 1, idx, c :: cs =>
    if isPre trioMarker (c :: cs) then
      match lazyTo trioStop ((c :: cs).drop trioMarker.length) with
      | some (body, rest) =>
        match ts.get? idx with
        | none => (trioMarker ++ body) ++ trioLoopF ts fuel (idx + 1) rest
        | some parsed => trioRep parsed ++ trioLoopF ts fuel (idx + 1) rest
      | none => c :: trioLoopF ts fuel idx cs
    else c :: trioLoopF ts fuel idx cs

/-- `processTrioHeadings` from html-transformers.mjs. -/
def processTrioHeadings (html : List Char) (ts : List (List (List Char))) :
    List Char :=
  trioLoopF ts html.length 0 html

theorem lazyTo_sound {stop : List Char → Bool} :
    ∀ {t b r : List Char}, lazyTo stop t = some (b, r) → t = b ++ r := by
  intro t
  induction t with
  | nil =>
    intro b r h
    simp only [lazyTo] at h
    split at h
    · simp only [Option.some.injEq, Prod.mk.injEq] at h
      rw [← h.1, ← h.2]
      rfl
    · exact absurd h (by simp)
  | cons c cs ih =>
    intro b r h
    simp only [lazyTo] at h
    split at h
    · simp only [Option.some.injEq, Prod.mk.injEq] at h
      rw [← h.1, ← h.2]
      rfl
    · cases hl : lazyTo stop cs with
      | none => rw [hl] at h; simp at h
      | some p =>
        rw [hl] at h
        simp only [Option.map_some', Option.some.injEq, Prod.mk.injEq] at h
        rw [← h.1, ← h.2]
        have := ih hl
        simp [this]

theorem isPre_decomp {p t : List Char} (h : isPre p t = true) :
    t = p ++ t.drop p.length := by
  obtain ⟨r, rfl⟩ := isPre_iff.mp h
  rw [List.drop_left]

/-- C6: once the running tuple index is at or past the end of the
extracted-tuples list (`trioMatches[trioIdx]` is undefined), every
remaining trio-marker occurrence — matched marker and lazy body alike —
is reproduced byte-for-byte, so the whole remaining scan is the identity;
in particular `processTrioHeadings html [] = html`.  The pass is a total
function, so the pipeline is never aborted. -/
theorem processTrioHeadings_desync_id :
    (∀ ts idx fuel html, ts.length ≤ idx →
      trioLoopF ts fuel idx html = html)
    ∧ (∀ html, processTrioHeadings html [] = html) := by
  have main : ∀ fuel (ts : List (List (List Char))) idx html,
      ts.length ≤ idx → trioLoopF ts fuel idx html = html := by
    intro fuel
    induction fuel with
    | zero =>
      intro ts idx html _
      cases html <;> rfl
    | succ fuel ih =>
      intro ts idx html hle
      cases html with
      | nil => rfl
      | cons c cs =>
        simp only [trioLoopF]
        split
        · rename_i hpre
          cases hl : lazyTo trioStop ((c :: cs).drop trioMarker.length) with
          | none => rw [ih ts idx cs hle]
          | some p =>
            obtain ⟨body, rest⟩ := p
            have hnone : ts.get? idx = none :=
              List.get?_eq_none.mpr hle
            simp only [hnone]
            rw [ih ts (idx + 1) rest (Nat.le_succ_of_le hle)]
            have hdec := isPre_decomp hpre
            have hbr := lazyTo_sound hl
            rw [List.append_assoc, ← hbr, ← hdec]
        · rw [ih ts idx cs hle]
  exact ⟨fun ts idx fuel html h => main fuel ts idx html h,
    fun html => main html.length [] 0 html (Nat.le_refl 0)⟩

/-- Witness for C6: a concrete fragment with one trio marker (body
delimited by `<ul`) and a tuple list whose length (1) does not exceed the
running index (3): the fragment passes through unchanged. -/
theorem processTrioHeadings_desync_id_witness :
    trioLoopF [[ "f".toList, "t".toList, "x".toList, "l".toList ]] 200 3
      ("A<span class=\"macro macro-resumeTrioHeading\"></span>body<ul>".toList)
      = "A<span class=\"macro macro-resumeTrioHeading\"></span>body<ul>".toList :=
  processTrioHeadings_desync_id.1 _ 3 200 _ (by decide)

/-! ## First-occurrence search (JS `indexOf`) and `String.split` -/

/-- First occurrence of `p` in `t` (JS `indexOf`): returns the text before
the occurrence and the text after it. -/
def firstSplit (p : List Char) : List Char → Option (List Char × List Char)
  | [] => if isPre p [] then some ([], []) else none
  | c :: cs =>
    if isPre p (c :: cs) then some ([], (c :: cs).drop p.length)
    else (firstSplit p cs).map (fun q => (c :: q.1, q.2))

theorem isPre_nil_iff {p : List Char} : isPre p [] = true ↔ p = [] := by
  cases p <;> simp [isPre]

theorem firstSplit_sound {p t a b : List Char}
    (h : firstSplit p t = some (a, b)) : t = a ++ (p ++ b) := by
  induction t generalizing a b with
  | nil =>
    simp only [firstSplit] at h
    split at h
    · rename_i hp
      simp only [Option.some.injEq, Prod.mk.injEq] at h
      rw [← h.1, ← h.2]
      simp [isPre_nil_iff.mp hp]
    · exact absurd h (by simp)
  | cons c cs ih =>
    simp only [firstSplit] at h
    split at h
    · rename_i hp
      simp only [Option.some.injEq, Prod.mk.injEq] at h
      rw [← h.1, ← h.2]
      simpa using isPre_decomp hp
    · cases hf : firstSplit p cs with
      | none => rw [hf] at h; simp at h
      | some q =>
        rw [hf] at h
        simp only [Option.map_some', Option.some.injEq, Prod.mk.injEq] at h
        rw [← h.1, ← h.2]
        simpa using ih hf

theorem firstSplit_at (p a b : List Char)
    (h : ∀ i, i < a.length → isPre p ((a ++ (p ++ b)).drop i) = false) :
    firstSplit p (a ++ (p ++ b)) = some (a, b) := by
  induction a with
  | nil =>
    simp only [List.nil_append]
    cases hpb : p ++ b with
    | nil =>
      obtain ⟨hp, hb⟩ := List.append_eq_nil.mp hpb
      subst hp
      subst hb
      rfl
    | cons c cs =>
      have hpre : isPre p (c :: cs) = true := by
        rw [← hpb]
        exact isPre_append_self p b
      have hdrop : (c :: cs).drop p.length = b := by
        rw [← hpb, List.drop_left]
      simp only [firstSplit, hpre, if_true, hdrop]
  | cons c cs ih =>
    have h0 := h 0 (by simp)
    simp only [List.drop_zero] at h0
    simp only [List.cons_append] at h0 ⊢
    simp only [firstSplit, h0, Bool.false_eq_true, if_false]
    rw [ih (fun i hi => by
      have hh := h (i + 1) (by simpa using Nat.succ_lt_succ hi)
      simpa using hh)]
    rfl

theorem firstSplit_none (p t : List Char) (hp : p ≠ [])
    (h : ∀ i, i < t.length → isPre p (t.drop i) = false) :
    firstSplit p t = none := by
  induction t with
  | nil =>
    have : isPre p [] = false := by
      cases p with
      | nil => exact absurd rfl hp
      | cons x xs => rfl
    simp [firstSplit, this]
  | cons c cs ih =>
    have h0 := h 0 (by simp)
    simp only [List.drop_zero] at h0
    simp only [firstSplit, h0, Bool.false_eq_true, if_false]
    rw [ih (fun i hi => by
      have hh := h (i + 1) (by simpa using Nat.succ_lt_succ hi)
      simpa using hh)]
    rfl

/-- Fuelled JS `String.split(sep)`: repeatedly cut at the first
occurrence of the separator. -/
def jsSplitF (sep : List Char) : Nat → List Char → List (List Char)
  | 0, t => [t]
  | fuel + 1, t =>
    match firstSplit sep t with
    | none => [t]
    | some (a, b) => a :: jsSplitF sep fuel b

/-- JS `String.split` with adequate fuel. -/
def jsSplit (sep t : List Char) : List (List Char) :=
  jsSplitF sep t.length t

theorem jsSplitF_none {sep t : List Char}
    (h : firstSplit sep t = none) :
    ∀ fuel, jsSplitF sep fuel t = [t] := by
  intro fuel
  cases fuel with
  | zero => rfl
  | succ fuel => simp [jsSplitF, h]

theorem jsSplitF_fuel {sep : List Char} (hsep : sep ≠ []) :
    ∀ f g t, t.length ≤ f → t.length ≤ g →
      jsSplitF sep f t = jsSplitF sep g t := by
  intro f
  induction f with
  | zero =>
    intro g t hf _
    have ht : t = [] := List.length_eq_zero.mp (Nat.le_zero.mp hf)
    subst ht
    have hn : firstSplit sep [] = none := by
      have : isPre sep [] = false := by
        cases sep with
        | nil => exact absurd rfl hsep
        | cons x xs => rfl
      simp [firstSplit, this]
    rw [jsSplitF_none hn g]
    rfl
  | succ f ih =>
    intro g t hf hg
    cases hfs : firstSplit sep t with
    | none => rw [jsSplitF_none hfs (f + 1), jsSplitF_none hfs g]
    | some q =>
      obtain ⟨a, b⟩ := q
      have hdec := firstSplit_sound hfs
      have hblt : b.length < t.length := by
        rw [hdec]
        simp only [List.length_append]
        cases sep with
        | nil => exact absurd rfl hsep
        | cons x xs => simp; omega
      cases g with
      | zero => omega
      | succ g =>
        simp only [jsSplitF, hfs]
        rw [ih g b (by omega) (by omega)]

theorem jsSplit_cons {sep t a b : List Char} (hsep : sep ≠ [])
    (h : firstSplit sep t = some (a, b)) :
    jsSplit sep t = a :: jsSplit sep b := by
  have hdec := firstSplit_sound h
  have hblt : b.length < t.length := by
    rw [hdec]
    simp only [List.length_append]
    cases sep with
    | nil => exact absurd rfl hsep
    | cons x xs => simp; omega
  unfold jsSplit
  cases ht : t.length with
  | zero =>
    exfalso
    omega
  | succ n =>
    simp only [jsSplitF, h]
    rw [jsSplitF_fuel hsep n b.length b (by omega) (Nat.le_refl _)]

/-! ## List-macro conversion (`processListMacros`, html-transformers.mjs,
with the markers of config.mjs) -/

/-- `LIST_MARKERS.start` from config.mjs. -/
def LIST_START : List Char :=
  "<span class=\"macro macro-resumeItemListStart\"></span>".toList

/-- `LIST_MARKERS.end` from config.mjs. -/
def LIST_END : List Char :=
  "<span class=\"macro macro-resumeItemListEnd\"></span>".toList

/-- `LIST_MARKERS.item` from config.mjs. -/
def LIST_ITEM : List Char :=
  "<span class=\"macro macro-resumeItem\"></span>".toList

/-- The `<ul>` assembled from the text between a start/end marker pair:
split on the item marker, trim each part, drop empty parts, wrap each
remaining part in `<li>` and the group in the list container. -/
def assembleUl (inner : List Char) : List Char :=
  "<ul class=\"resume-items\">".toList
    ++ ((((jsSplit LIST_ITEM inner).map trimStr).filter
          (fun part => !part.isEmpty)).map
        (fun part => "<li>".toList ++ part ++ "</li>".toList)).flatten
    ++ "</ul>".toList

/-- One iteration of the `while (true)` loop of `processListMacros`:
`done` is the already-scanned text before `searchStart`, `rest` the text
from `searchStart` on.  The iteration finds the next start marker in
`rest` (`indexOf` from `searchStart`) and the next end marker at or after
the start position, replaces the delimited region by the assembled list,
and returns the new scanned prefix and remainder; `none` when either
marker is missing (the loop then breaks, leaving the text as is). -/
def listStep (done rest : List Char) : Option (List Char × List Char) :=
  match firstSplit LIST_START rest with
  | none => none
  | some (a, b) =>
    match firstSplit LIST_END (LIST_START ++ b) with
    | none => none
    | some (a2, b2) =>
      some (done ++ a ++ assembleUl (a2.drop LIST_START.length), b2)

/-- Fuelled iteration of the loop: when `listStep` finds no further
start/end pair the loop breaks and the string is returned unchanged. -/
def listLoopF : Nat → List Char → List Char → List Char
  | 0, done, rest => done ++ rest
  | fuel + 1, done, rest =>
    match listStep done rest with
    | none => done ++ rest
    | some p => listLoopF fuel p.1 p.2

/-- `processListMacros` from html-transformers.mjs. -/
def processListMacros (html : List Char) : List Char :=
  listLoopF html.length [] html

/-- Iteration counter of the same loop (the replaced prefix does not
influence which pairs are found, so `done` is irrelevant here). -/
def listCountF : Nat → List Char → Nat
  | 0, _ => 0
  | fuel + 1, rest =>
    match listStep [] rest with
    | none => 0
    | some p => 1 + listCountF fuel p.2

theorem listStep_none {done rest : List Char}
    (h : firstSplit LIST_START rest = none) : listStep done rest = none := by
  unfold listStep
  rw [h]

theorem listStep_some {done rest a b a2 b2 : List Char}
    (h1 : firstSplit LIST_START rest = some (a, b))
    (h2 : firstSplit LIST_END (LIST_START ++ b) = some (a2, b2)) :
    listStep done rest
      = some (done ++ a ++ assembleUl (a2.drop LIST_START.length), b2) := by
  unfold listStep
  rw [h1]
  show (match firstSplit LIST_END (LIST_START ++ b) with
    | none => none
    | some (a2, b2) =>
      some (done ++ a ++ assembleUl (a2.drop LIST_START.length), b2)
    : Option (List Char × List Char))
    = some (done ++ a ++ assembleUl (a2.drop LIST_START.length), b2)
  rw [h2]

theorem listStep_inv {done rest d2 r2 : List Char}
    (h : listStep done rest = some (d2, r2)) :
    ∃ a b a2, firstSplit LIST_START rest = some (a, b)
      ∧ firstSplit LIST_END (LIST_START ++ b) = some (a2, r2)
      ∧ d2 = done ++ a ++ assembleUl (a2.drop LIST_START.length) := by
  unfold listStep at h
  split at h
  · exact absurd h (by simp)
  · rename_i a b heq1
    split at h
    · exact absurd h (by simp)
    · rename_i a2 b2 heq2
      simp only [Option.some.injEq, Prod.mk.injEq] at h
      exact ⟨a, b, a2, heq1, h.2 ▸ heq2, h.1.symm⟩

theorem listStep_shrinks {done rest d2 r2 : List Char}
    (h : listStep done rest = some (d2, r2)) : r2.length < rest.length := by
  obtain ⟨a, b, a2, h1, h2, _⟩ := listStep_inv h
  have l1 := congrArg List.length (firstSplit_sound h1)
  have l2 := congrArg List.length (firstSplit_sound h2)
  simp only [List.length_append] at l1 l2
  have hE : 0 < LIST_END.length := by decide
  omega

theorem listLoopF_succ_none {done rest : List Char}
    (h : listStep done rest = none) (f : Nat) :
    listLoopF (f + 1) done rest = done ++ rest := by
  show (match listStep done rest with
    | none => done ++ rest
    | some p => listLoopF f p.1 p.2) = done ++ rest
  rw [h]

theorem listLoopF_succ_some {done rest d2 r2 : List Char}
    (h : listStep done rest = some (d2, r2)) (f : Nat) :
    listLoopF (f + 1) done rest = listLoopF f d2 r2 := by
  show (match listStep done rest with
    | none => done ++ rest
    | some p => listLoopF f p.1 p.2) = listLoopF f d2 r2
  rw [h]

theorem listLoopF_fuel :
    ∀ f g done rest, rest.length ≤ f → rest.length ≤ g →
      listLoopF f done rest = listLoopF g done rest := by
  intro f
  induction f with
  | zero =>
    intro g done rest hf _
    have hr : rest = [] := List.length_eq_zero.mp (Nat.le_zero.mp hf)
    subst hr
    have hn : listStep done ([] : List Char) = none :=
      listStep_none (by decide)
    cases g with
    | zero => rfl
    | succ g =>
      rw [listLoopF_succ_none hn g]
      rfl
  | succ f ih =>
    intro g done rest hf hg
    cases hstep : listStep done rest with
    | none =>
      rw [listLoopF_succ_none hstep f]
      cases g with
      | zero => rfl
      | succ g => rw [listLoopF_succ_none hstep g]
    | some p =>
      obtain ⟨d2, r2⟩ := p
      have hlt := listStep_shrinks hstep
      cases g with
      | zero => omega
      | succ g =>
        rw [listLoopF_succ_some hstep f, listLoopF_succ_some hstep g]
        exact ih g d2 r2 (by omega) (by omega)

/-- Running the loop with adequate fuel: break case. -/
theorem listLoopF_run_none {done rest : List Char}
    (h : listStep done rest = none) (f : Nat) :
    listLoopF f done rest = done ++ rest := by
  cases f with
  | zero => rfl
  | succ f => exact listLoopF_succ_none h f

/-- Running the loop with adequate fuel: iteration case. -/
theorem listLoopF_run_some {done rest d2 r2 : List Char}
    (h : listStep done rest = some (d2, r2)) {f : Nat}
    (hf : rest.length ≤ f) :
    listLoopF f done rest = listLoopF r2.length d2 r2 := by
  have hlt := listStep_shrinks h
  cases f with
  | zero => omega
  | succ f =>
    rw [listLoopF_succ_some h f]
    exact listLoopF_fuel f r2.length d2 r2 (by omega) (Nat.le_refl _)

theorem countOcc_append_le (p x y : List Char) :
    countOcc p y ≤ countOcc p (x ++ y) := by
  induction x with
  | nil => exact Nat.le_refl _
  | cons c cs ih =>
    simp only [List.cons_append, countOcc]
    exact Nat.le_trans ih (Nat.le_add_left _ _)

theorem countOcc_lower (p : List Char) :
    ∀ (x y : List Char) (j : Nat), j < x.length →
      isPre p ((x ++ y).drop j) = true →
      1 + countOcc p y ≤ countOcc p (x ++ y) := by
  intro x
  induction x with
  | nil =>
    intro y j hj _
    simp at hj
  | cons c cs ih =>
    intro y j hj hocc
    cases j with
    | zero =>
      simp only [List.drop_zero, List.cons_append] at hocc
      simp only [List.cons_append, countOcc, List.append_eq]
      have hone : (if isPre p (c :: (cs ++ y)) = true then 1 else 0) = 1 := by
        simp [hocc]
      rw [hone]
      have := countOcc_append_le p cs y
      omega
    | succ j =>
      simp only [List.cons_append, List.drop_succ_cons] at hocc
      have hj2 : j < cs.length := by
        simp only [List.length_cons] at hj
        omega
      have := ih y j hj2 hocc
      simp only [List.cons_append, countOcc, List.append_eq]
      omega

theorem listCountF_succ_none {rest : List Char}
    (h : listStep [] rest = none) (f : Nat) :
    listCountF (f + 1) rest = 0 := by
  show (match listStep [] rest with
    | none => 0
    | some p => 1 + listCountF f p.2) = 0
  rw [h]

theorem listCountF_succ_some {rest d2 r2 : List Char}
    (h : listStep [] rest = some (d2, r2)) (f : Nat) :
    listCountF (f + 1) rest = 1 + listCountF f r2 := by
  show (match listStep [] rest with
    | none => 0
    | some p => 1 + listCountF f p.2) = 1 + listCountF f r2
  rw [h]

theorem listCountF_le (fuel : Nat) :
    ∀ rest, listCountF fuel rest ≤ countOcc LIST_START rest := by
  induction fuel with
  | zero =>
    intro rest
    exact Nat.zero_le _
  | succ fuel ih =>
    intro rest
    cases hstep : listStep [] rest with
    | none =>
      rw [listCountF_succ_none hstep fuel]
      exact Nat.zero_le _
    | some p =>
      obtain ⟨d2, r2⟩ := p
      rw [listCountF_succ_some hstep fuel]
      obtain ⟨a, b, a2, h1, h2, _⟩ := listStep_inv hstep
      have hd1 := firstSplit_sound h1
      have hd2 := firstSplit_sound h2
      have hre : rest = (a ++ (a2 ++ LIST_END)) ++ r2 := by
        rw [hd1, hd2]
        simp [List.append_assoc]
      have hocc : isPre LIST_START
          (((a ++ (a2 ++ LIST_END)) ++ r2).drop a.length) = true := by
        have e1 : ((a ++ (a2 ++ LIST_END)) ++ r2).drop a.length
            = (a2 ++ LIST_END) ++ r2 := by
          rw [List.append_assoc a, List.drop_left]
        rw [e1]
        have e2 : (a2 ++ LIST_END) ++ r2 = LIST_START ++ b := by
          rw [List.append_assoc, ← hd2]
        rw [e2]
        exact isPre_append_self _ _
      have hj : a.length < (a ++ (a2 ++ LIST_END)).length := by
        simp only [List.length_append]
        have hE : 0 < LIST_END.length := by decide
        omega
      have hlow := countOcc_lower LIST_START _ r2 a.length hj hocc
      rw [hre]
      have := ih r2
      omega


/-- C10: the `while (true)` loop of `processListMacros` terminates on
every finite input: fuel equal to the scanned text's length always
suffices (more fuel never changes the result), and the number of
iterations executed is bounded by the number of start-marker occurrences
in the scanned text. -/
theorem processListMacros_terminates :
    (∀ html fuel, html.length ≤ fuel →
      listLoopF fuel [] html = processListMacros html)
    ∧ (∀ rest fuel, listCountF fuel rest ≤ countOcc LIST_START rest) := by
  constructor
  · intro html fuel hf
    unfold processListMacros
    exact listLoopF_fuel fuel html.length [] html hf (Nat.le_refl _)
  · intro rest fuel
    exact listCountF_le fuel rest

/-- Witness for C10 on a concrete one-list fragment. -/
theorem processListMacros_terminates_witness :
    listLoopF 500 []
        ("x".toList ++ (LIST_START ++ (LIST_ITEM ++ ("a".toList ++ LIST_END))))
      = processListMacros
        ("x".toList ++ (LIST_START ++ (LIST_ITEM ++ ("a".toList ++ LIST_END))))
    ∧ listCountF 500
        ("x".toList ++ (LIST_START ++ (LIST_ITEM ++ ("a".toList ++ LIST_END))))
      ≤ countOcc LIST_START
        ("x".toList ++ (LIST_START ++ (LIST_ITEM ++ ("a".toList ++ LIST_END)))) :=
  ⟨processListMacros_terminates.1 _ 500 (by decide),
    processListMacros_terminates.2 _ 500⟩

/-- C8 counterexample: an input with exactly one start marker, then three
item markers with an empty segment before the first one, then one end
marker — and non-blank text in each of the three remaining segments.  The
produced list has 3 items, not 2: with segments `["", "a", "b", "c"]` only
the single empty segment is dropped. -/
theorem processListMacros_two_items_fails :
    countOcc LIST_START
        ("A".toList ++ (LIST_START ++ (LIST_ITEM ++ ("a".toList ++ (LIST_ITEM
          ++ ("b".toList ++ (LIST_ITEM ++ ("c".toList
          ++ (LIST_END ++ "Z".toList))))))))) = 1
    ∧ countOcc LIST_ITEM
        ("A".toList ++ (LIST_START ++ (LIST_ITEM ++ ("a".toList ++ (LIST_ITEM
          ++ ("b".toList ++ (LIST_ITEM ++ ("c".toList
          ++ (LIST_END ++ "Z".toList))))))))) = 3
    ∧ countOcc LIST_END
        ("A".toList ++ (LIST_START ++ (LIST_ITEM ++ ("a".toList ++ (LIST_ITEM
          ++ ("b".toList ++ (LIST_ITEM ++ ("c".toList
          ++ (LIST_END ++ "Z".toList))))))))) = 1
    ∧ countOcc "<li>".toList
        (processListMacros
          ("A".toList ++ (LIST_START ++ (LIST_ITEM ++ ("a".toList ++ (LIST_ITEM
            ++ ("b".toList ++ (LIST_ITEM ++ ("c".toList
            ++ (LIST_END ++ "Z".toList)))))))))) = 3 := by
  refine ⟨by decide, by decide, by decide, by decide⟩

/-- C8 (amended): for an input consisting of text `u0`, one start marker,
three item markers with segments `s1`, `s2`, `s3` after them (the segment
before the first item marker being empty), one end marker, and text `u1`
(under the occurrence-freedom side conditions that make these the markers
found by the scan), the pass produces a single list container whose items
are exactly the non-blank trimmed segments, in order — 2 items precisely
when exactly one of the three segments is blank. -/
theorem processListMacros_amended (u0 s1 s2 s3 u1 : List Char)
    (h1 : ∀ i, i < u0.length → isPre LIST_START
      ((u0 ++ (LIST_START ++ (LIST_ITEM ++ (s1 ++ (LIST_ITEM ++ (s2
        ++ (LIST_ITEM ++ (s3 ++ (LIST_END ++ u1))))))))).drop i) = false)
    (h2 : ∀ i, i < (LIST_START ++ (LIST_ITEM ++ (s1 ++ (LIST_ITEM
        ++ (s2 ++ (LIST_ITEM ++ s3)))))).length → isPre LIST_END
      ((LIST_START ++ (LIST_ITEM ++ (s1 ++ (LIST_ITEM ++ (s2
        ++ (LIST_ITEM ++ (s3 ++ (LIST_END ++ u1)))))))).drop i) = false)
    (h3 : ∀ i, i < s1.length → isPre LIST_ITEM
      ((s1 ++ (LIST_ITEM ++ (s2 ++ (LIST_ITEM ++ s3)))).drop i) = false)
    (h4 : ∀ i, i < s2.length → isPre LIST_ITEM
      ((s2 ++ (LIST_ITEM ++ s3)).drop i) = false)
    (h5 : ∀ i, i < s3.length → isPre LIST_ITEM (s3.drop i) = false)
    (h6 : ∀ i, i < u1.length → isPre LIST_START (u1.drop i) = false) :
    processListMacros
        (u0 ++ (LIST_START ++ (LIST_ITEM ++ (s1 ++ (LIST_ITEM ++ (s2
          ++ (LIST_ITEM ++ (s3 ++ (LIST_END ++ u1)))))))))
      = u0 ++ ("<ul class=\"resume-items\">".toList
          ++ (([trimStr s1, trimStr s2, trimStr s3].filter
                (fun part => !part.isEmpty)).map
              (fun part => "<li>".toList ++ part ++ "</li>".toList)).flatten
          ++ "</ul>".toList) ++ u1 := by
  have hITEMne : LIST_ITEM ≠ [] := by decide
  -- the text after the start marker
  have hs : firstSplit LIST_START
      (u0 ++ (LIST_START ++ (LIST_ITEM ++ (s1 ++ (LIST_ITEM ++ (s2
        ++ (LIST_ITEM ++ (s3 ++ (LIST_END ++ u1)))))))))
      = some (u0, LIST_ITEM ++ (s1 ++ (LIST_ITEM ++ (s2
          ++ (LIST_ITEM ++ (s3 ++ (LIST_END ++ u1))))))) :=
    firstSplit_at _ _ _ h1
  -- the end-marker search runs over LIST_START ++ body
  have hBeq : LIST_START ++ (LIST_ITEM ++ (s1 ++ (LIST_ITEM ++ (s2
        ++ (LIST_ITEM ++ (s3 ++ (LIST_END ++ u1)))))))
      = (LIST_START ++ (LIST_ITEM ++ (s1 ++ (LIST_ITEM ++ (s2
          ++ (LIST_ITEM ++ s3)))))) ++ (LIST_END ++ u1) := by
    simp [List.append_assoc]
  have he : firstSplit LIST_END
      (LIST_START ++ (LIST_ITEM ++ (s1 ++ (LIST_ITEM ++ (s2
        ++ (LIST_ITEM ++ (s3 ++ (LIST_END ++ u1))))))))
      = some (LIST_START ++ (LIST_ITEM ++ (s1 ++ (LIST_ITEM ++ (s2
          ++ (LIST_ITEM ++ s3))))), u1) := by
    rw [hBeq]
    exact firstSplit_at _ _ _ (fun i hi => by
      rw [← hBeq]
      exact h2 i hi)
  -- the inner text and its split into segments
  have hdropInner : (LIST_START ++ (LIST_ITEM ++ (s1 ++ (LIST_ITEM ++ (s2
      ++ (LIST_ITEM ++ s3)))))).drop LIST_START.length
      = LIST_ITEM ++ (s1 ++ (LIST_ITEM ++ (s2 ++ (LIST_ITEM ++ s3)))) :=
    List.drop_left _ _
  have hjs : jsSplit LIST_ITEM
      (LIST_ITEM ++ (s1 ++ (LIST_ITEM ++ (s2 ++ (LIST_ITEM ++ s3)))))
      = [[], s1, s2, s3] := by
    have hf1 : firstSplit LIST_ITEM
        (LIST_ITEM ++ (s1 ++ (LIST_ITEM ++ (s2 ++ (LIST_ITEM ++ s3)))))
        = some ([], s1 ++ (LIST_ITEM ++ (s2 ++ (LIST_ITEM ++ s3)))) := by
      have := firstSplit_at LIST_ITEM []
        (s1 ++ (LIST_ITEM ++ (s2 ++ (LIST_ITEM ++ s3))))
        (fun i hi => by simp at hi)
      simpa using this
    have hf2 : firstSplit LIST_ITEM
        (s1 ++ (LIST_ITEM ++ (s2 ++ (LIST_ITEM ++ s3))))
        = some (s1, s2 ++ (LIST_ITEM ++ s3)) :=
      firstSplit_at _ _ _ h3
    have hf3 : firstSplit LIST_ITEM (s2 ++ (LIST_ITEM ++ s3))
        = some (s2, s3) :=
      firstSplit_at _ _ _ h4
    have hf4 : firstSplit LIST_ITEM s3 = none :=
      firstSplit_none _ _ hITEMne h5
    rw [jsSplit_cons hITEMne hf1, jsSplit_cons hITEMne hf2,
      jsSplit_cons hITEMne hf3]
    unfold jsSplit
    rw [jsSplitF_none hf4]
  have hassem : assembleUl
      (LIST_ITEM ++ (s1 ++ (LIST_ITEM ++ (s2 ++ (LIST_ITEM ++ s3)))))
      = "<ul class=\"resume-items\">".toList
          ++ (([trimStr s1, trimStr s2, trimStr s3].filter
                (fun part => !part.isEmpty)).map
              (fun part => "<li>".toList ++ part ++ "</li>".toList)).flatten
          ++ "</ul>".toList := by
    unfold assembleUl
    rw [hjs]
    have ht0 : trimStr [] = [] := rfl
    simp only [List.map_cons, List.map_nil, ht0, List.filter_cons,
      List.isEmpty_nil, Bool.not_true, Bool.false_eq_true, if_false]
  unfold processListMacros
  rw [listLoopF_run_some (listStep_some hs he) (Nat.le_refl _)]
  rw [listLoopF_run_none (listStep_none (firstSplit_none _ _ (by decide) h6))]
  rw [hdropInner, hassem]
  simp [List.append_assoc]

/-- Witness for C8 (amended): segments `a`, `b` and an empty third
segment (nothing between the last item marker and the end marker):
exactly 2 list items are produced. -/
theorem processListMacros_amended_witness :
    processListMacros
        ("A".toList ++ (LIST_START ++ (LIST_ITEM ++ ("a".toList ++ (LIST_ITEM
          ++ ("b".toList ++ (LIST_ITEM ++ (([] : List Char)
          ++ (LIST_END ++ "Z".toList)))))))))
      = "A<ul class=\"resume-items\"><li>a</li><li>b</li></ul>Z".toList := by
  rw [processListMacros_amended "A".toList "a".toList "b".toList []
    "Z".toList (by decide) (by decide) (by decide) (by decide) (by decide)
    (by decide)]
  decide

/-! ## Icon substitution (`replaceIconMacros`, html-helpers.mjs, with
`ICON_MAP` of config.mjs) -/

/-- `ICON_MAP` lookup with the `'fas fa-circle'` fallback. -/
def iconMap (m : List Char) : List Char :=
  if m = "faLinkedin".toList then "fab fa-linkedin".toList
  else if m = "faGithub".toList then "fab fa-github".toList
  else if m = "faEnvelope".toList then "fas fa-envelope".toList
  else if m = "faMobile".toList then "fas fa-mobile".toList
  else "fas fa-circle".toList

/-- The fixed prefix of the icon-marker regex
`<span class="macro macro-(fa\w+)"><\/span>`. -/
def iconPre : List Char := "<span class=\"macro macro-".toList

/-- The fixed suffix of the icon-marker regex. -/
def iconSuf : List Char := "\"></span>".toList

/-- The `<i>` element substituted for the captured macro name `m`. -/
def iconRep (m : List Char) : List Char :=
  "<i class=\"".toList ++ iconMap m ++ "\"></i>".toList

/-- Matcher for the icon-marker regex at the current position: the literal
prefix, the capture `fa\w+` (letters `fa` followed by a non-empty run of
word characters — the run necessarily ends at the non-word `"` of the
suffix, so greedy matching is exact), and the literal suffix. -/
def iconMatcher (t : List Char) : Option (List Char × List Char) :=
  match dropPre iconPre t with
  | none => none
  | some r1 =>
    match dropPre ['f', 'a'] r1 with
    | none => none
    | some r2 =>
      match spanW r2 with
      | ([], _) => none
      | (w₀ :: w, r3) =>
        match dropPre iconSuf r3 with
        | none => none
        | some rest => some (iconRep ('f' :: 'a' :: w₀ :: w), rest)

/-- `replaceIconMacros` from html-helpers.mjs. -/
def replaceIconMacros (html : List Char) : List Char :=
  gRep iconMatcher html

theorem spanW_sound :
    ∀ {r w r3 : List Char}, spanW r = (w, r3) →
      r = w ++ r3 ∧ ∀ c ∈ w, isWordChar c = true := by
  intro r
  induction r with
  | nil =>
    intro w r3 h
    simp only [spanW, Prod.mk.injEq] at h
    refine ⟨?_, ?_⟩
    · rw [← h.1, ← h.2]
      rfl
    · intro c hc
      rw [← h.1] at hc
      simp at hc
  | cons c cs ih =>
    intro w r3 h
    simp only [spanW] at h
    by_cases hc : isWordChar c = true
    · rw [if_pos hc] at h
      obtain ⟨hcs, hall⟩ := ih (rfl : spanW cs = ((spanW cs).1, (spanW cs).2))
      simp only [Prod.mk.injEq] at h
      constructor
      · rw [← h.1, ← h.2]
        simp only [List.cons_append]
        rw [← hcs]
      · intro d hd
        rw [← h.1] at hd
        rcases List.mem_cons.mp hd with h1 | h1
        · rw [h1]
          exact hc
        · exact hall d h1
    · rw [if_neg hc] at h
      simp only [Prod.mk.injEq] at h
      constructor
      · rw [← h.1, ← h.2]
        rfl
      · intro d hd
        rw [← h.1] at hd
        simp at hd

theorem spanW_append :
    ∀ (w : List Char) (b₀ : Char) (b : List Char),
      (∀ c ∈ w, isWordChar c = true) → isWordChar b₀ = false →
      spanW (w ++ b₀ :: b) = (w, b₀ :: b) := by
  intro w
  induction w with
  | nil =>
    intro b₀ b _ hb
    simp only [List.nil_append, spanW, hb, Bool.false_eq_true, if_false]
  | cons c cs ih =>
    intro b₀ b hall hb
    have hc : isWordChar c = true := hall c (by simp)
    simp only [List.cons_append, spanW, hc, if_true, List.append_eq]
    rw [ih b₀ b (fun d hd => hall d (by simp [hd])) hb]

theorem iconMatcher_sound {t rep rest : List Char}
    (h : iconMatcher t = some (rep, rest)) :
    ∃ w, w ≠ [] ∧ (∀ c ∈ w, isWordChar c = true)
      ∧ t = iconPre ++ ('f' :: 'a' :: (w ++ (iconSuf ++ rest)))
      ∧ rep = iconRep ('f' :: 'a' :: w) := by
  unfold iconMatcher at h
  cases h1 : dropPre iconPre t with
  | none =>
    rw [h1] at h
    simp at h
  | some r1 =>
    rw [h1] at h
    dsimp only at h
    cases h2 : dropPre ['f', 'a'] r1 with
    | none =>
      rw [h2] at h
      simp at h
    | some r2 =>
      rw [h2] at h
      dsimp only at h
      cases hsp : spanW r2 with
      | mk w13 r3 =>
        rw [hsp] at h
        cases w13 with
        | nil => simp at h
        | cons w₀ ws =>
          dsimp only at h
          cases h3 : dropPre iconSuf r3 with
          | none =>
            rw [h3] at h
            simp at h
          | some rest2 =>
            rw [h3] at h
            simp only [Option.some.injEq, Prod.mk.injEq] at h
            obtain ⟨hsnd, hall⟩ := spanW_sound hsp
            refine ⟨w₀ :: ws, by simp, hall, ?_, h.1.symm⟩
            have ht := dropPre_eq_some.mp h1
            have hfa := dropPre_eq_some.mp h2
            have hr3 := dropPre_eq_some.mp h3
            rw [ht, hfa, hsnd, hr3, h.2]
            rfl

theorem iconMatcher_complete {w : List Char} (rest : List Char)
    (hw : w ≠ []) (hall : ∀ c ∈ w, isWordChar c = true) :
    iconMatcher (iconPre ++ ('f' :: 'a' :: (w ++ (iconSuf ++ rest))))
      = some (iconRep ('f' :: 'a' :: w), rest) := by
  cases w with
  | nil => exact absurd rfl hw
  | cons w₀ ws =>
    have hsuf : iconSuf ++ rest = '"' :: ("></span>".toList ++ rest) := rfl
    have hspan : spanW ((w₀ :: ws) ++ (iconSuf ++ rest))
        = (w₀ :: ws, iconSuf ++ rest) := by
      rw [hsuf]
      exact spanW_append (w₀ :: ws) '"' _ hall (by decide)
    have hfa : 'f' :: 'a' :: ((w₀ :: ws) ++ (iconSuf ++ rest))
        = ['f', 'a'] ++ ((w₀ :: ws) ++ (iconSuf ++ rest)) := rfl
    unfold iconMatcher
    rw [dropPre_append]
    dsimp only
    rw [hfa, dropPre_append]
    dsimp only
    rw [hspan]
    dsimp only
    rw [dropPre_append]

theorem iconMatcher_consumes : Consumes iconMatcher := by
  intro t rep rest h
  obtain ⟨w, _, _, ht, _⟩ := iconMatcher_sound h
  rw [ht]
  simp only [List.length_append, List.length_cons]
  omega

/-- `noLtI l` holds when the two-character sequence `<i` does not occur
in `l`. -/
def noLtI : List Char → Bool
  | [] => true
  | [_] => true
  | a :: b :: rest => !(a == '<' && b == 'i') && noLtI (b :: rest)

theorem noLtI_append_false : ∀ (u e : List Char),
    noLtI (u ++ '<' :: 'i' :: e) = false := by
  intro u
  induction u with
  | nil =>
    intro e
    simp [noLtI]
  | cons c cs ih =>
    intro e
    cases cs with
    | nil => simp [noLtI]
    | cons d ds =>
      have := ih e
      simp only [List.cons_append] at this ⊢
      simp [noLtI, this]

theorem noLtI_append_no_lt : ∀ (l r : List Char),
    (∀ c ∈ l, ¬ c = '<') → noLtI (l ++ r) = noLtI r := by
  intro l
  induction l with
  | nil =>
    intro r _
    rfl
  | cons c cs ih =>
    intro r hl
    have hc : ¬ c = '<' := hl c (by simp)
    cases hcr : cs ++ r with
    | nil =>
      have hr : r = [] := (List.append_eq_nil.mp hcr).2
      rw [List.cons_append, hcr, hr]
      rfl
    | cons d ds =>
      rw [List.cons_append, hcr]
      have hbc : (c == '<') = false := by
        simp [hc]
      simp only [noLtI, hbc, Bool.false_and, Bool.not_false, Bool.true_and]
      rw [← hcr]
      exact ih r (fun d hd => hl d (by simp [hd]))

/-- The matched text of an icon-marker occurrence never contains the
sequence `<i`: its `<` characters are followed by `s` (in the prefix) or
`/` (in the suffix), and the captured name consists of word characters. -/
theorem noLtI_pattern {w : List Char} (hall : ∀ c ∈ w, isWordChar c = true) :
    noLtI (iconPre ++ ('f' :: 'a' :: (w ++ iconSuf))) = true := by
  have h1 : iconPre ++ ('f' :: 'a' :: (w ++ iconSuf))
      = '<' :: (('s' :: "pan class=\"macro macro-".toList)
          ++ (('f' :: 'a' :: w) ++ iconSuf)) := by
    simp [iconPre, List.append_assoc]
  rw [h1]
  have h2 : noLtI ('<' :: (('s' :: "pan class=\"macro macro-".toList)
      ++ (('f' :: 'a' :: w) ++ iconSuf)))
      = noLtI (('s' :: "pan class=\"macro macro-".toList)
          ++ (('f' :: 'a' :: w) ++ iconSuf)) := by
    simp [noLtI]
  rw [h2]
  rw [noLtI_append_no_lt ('s' :: "pan class=\"macro macro-".toList) _
    (by decide)]
  rw [noLtI_append_no_lt ('f' :: 'a' :: w) iconSuf ?_]
  · decide
  · intro c hc
    rcases List.mem_cons.mp hc with h | h
    · rw [h]; decide
    · rcases List.mem_cons.mp h with h' | h'
      · rw [h']; decide
      · intro heq
        have := hall c h'
        rw [heq] at this
        exact absurd this (by decide)

/-- If no icon-marker match starts at the head of `u ++ cs0`, then none
starts at the head of `u ++ (iconRep m ++ X)` either: a fresh match would
have to begin inside `u` (impossible: extended by `cs0` it would have
matched before) or overlap the inserted `<i …>` element (impossible: the
marker pattern contains no `<i` pair and does not end in `<`). -/
theorem iconMatcher_shift_none {u cs0 : List Char}
    (h : iconMatcher (u ++ cs0) = none) (m X : List Char) :
    iconMatcher (u ++ (iconRep m ++ X)) = none := by
  cases hsome : iconMatcher (u ++ (iconRep m ++ X)) with
  | none => rfl
  | some pr =>
    exfalso
    obtain ⟨rep2, rest2⟩ := pr
    obtain ⟨w2, hw2, hall2, heq, _⟩ := iconMatcher_sound hsome
    have heq2 : u ++ (iconRep m ++ X)
        = (iconPre ++ ('f' :: 'a' :: (w2 ++ iconSuf))) ++ rest2 := by
      rw [heq]
      simp [List.append_assoc]
    have hcontra : ∀ c' : List Char,
        u = (iconPre ++ ('f' :: 'a' :: (w2 ++ iconSuf))) ++ c' → False := by
      intro c' hu
      have hcomp : iconMatcher (u ++ cs0)
          = some (iconRep ('f' :: 'a' :: w2), c' ++ cs0) := by
        have e3 : u ++ cs0
            = iconPre ++ ('f' :: 'a' :: (w2 ++ (iconSuf ++ (c' ++ cs0)))) := by
          rw [hu]
          simp [List.append_assoc]
        rw [e3]
        exact iconMatcher_complete _ hw2 hall2
      rw [hcomp] at h
      cases h
    rcases List.append_eq_append_iff.mp heq2 with ⟨e, hC, hrep⟩ | ⟨e, hu, _⟩
    · cases e with
      | nil =>
        have hu : u = (iconPre ++ ('f' :: 'a' :: (w2 ++ iconSuf))) ++ [] := by
          simpa using hC.symm
        exact hcontra [] hu
      | cons e₀ e' =>
        have hshape : iconRep m ++ X
            = '<' :: 'i' :: ((" class=\"".toList ++ iconMap m
                ++ "\"></i>".toList) ++ X) := rfl
        rw [hshape] at hrep
        simp only [List.cons_append] at hrep
        injection hrep with he₀ hrest
        cases e' with
        | nil =>
          subst he₀
          have hrev := congrArg List.reverse hC
          have hsufrev : iconSuf.reverse = '>' :: "naps/<>\"".toList := by
            decide
          simp only [List.reverse_append, List.reverse_cons,
            List.append_assoc, hsufrev, List.cons_append, List.reverse_nil,
            List.nil_append, List.singleton_append] at hrev
          simp at hrev
        | cons e₁ e'' =>
          simp only [List.cons_append] at hrest
          injection hrest with he₁ _
          subst he₀
          subst he₁
          have h5 := noLtI_pattern hall2
          rw [hC] at h5
          rw [noLtI_append_false] at h5
          cases h5
    · exact hcontra e hu

/-- Rewriting the tail never creates a match at a position where none
was: the scan output of `cs` substituted for `cs` after any left context
`u` preserves match-freedom at the head. -/
theorem iconMatcher_none_pres :
    ∀ n (cs : List Char), cs.length ≤ n → ∀ u : List Char,
      iconMatcher (u ++ cs) = none →
      iconMatcher (u ++ gRep iconMatcher cs) = none := by
  intro n
  induction n with
  | zero =>
    intro cs hcs u h
    have : cs = [] := List.length_eq_zero.mp (Nat.le_zero.mp hcs)
    subst this
    exact h
  | succ n ih =>
    intro cs hcs u h
    cases cs with
    | nil => exact h
    | cons c cs' =>
      cases hm : iconMatcher (c :: cs') with
      | none =>
        rw [gRep_cons_none hm]
        have h2 : iconMatcher ((u ++ [c]) ++ cs') = none := by
          have e : (u ++ [c]) ++ cs' = u ++ (c :: cs') := by
            simp
          rw [e]
          exact h
        have h3 := ih cs' (by simpa using Nat.le_of_succ_le_succ hcs)
          (u ++ [c]) h2
        have e2 : (u ++ [c]) ++ gRep iconMatcher cs'
            = u ++ (c :: gRep iconMatcher cs') := by
          simp
        rw [e2] at h3
        exact h3
      | some pr =>
        obtain ⟨rep, rest⟩ := pr
        obtain ⟨w, hw, hall, hshape, hrep⟩ := iconMatcher_sound hm
        rw [gRep_cons_some iconMatcher_consumes hm, hrep]
        exact iconMatcher_shift_none h ('f' :: 'a' :: w)
          (gRep iconMatcher rest)

/-- Decidable criterion: every suffix of `l` disagrees with the marker
prefix before either runs out, so no match can start inside `l`. -/
def passThrough : List Char → Bool
  | [] => true
  | c :: cs =>
    (!(isPre (c :: cs) iconPre) && !(isPre iconPre (c :: cs)))
      && passThrough cs

theorem passThrough_gRep :
    ∀ (R : List Char), passThrough R = true →
      ∀ X, gRep iconMatcher (R ++ X) = R ++ gRep iconMatcher X := by
  intro R
  induction R with
  | nil =>
    intro _ X
    rfl
  | cons c cs ih =>
    intro hp X
    simp only [passThrough, Bool.and_eq_true, Bool.not_eq_true'] at hp
    have hnone : iconMatcher (c :: (cs ++ X)) = none := by
      have hd := dropPre_none_of_mismatch X hp.1.1 hp.1.2
      unfold iconMatcher
      simp only [List.cons_append] at hd
      rw [hd]
    rw [List.cons_append, gRep_cons_none hnone, ih hp.2 X, List.cons_append]

theorem passThrough_iconRep (m : List Char) :
    passThrough (iconRep m) = true := by
  unfold iconRep iconMap
  split_ifs <;> decide

/-- C7: the icon-substitution pass is idempotent — applying
`replaceIconMacros` to its own output changes nothing, because the pass
only rewrites marker spans, which no longer occur in its output. -/
theorem replaceIconMacros_idempotent (html : List Char) :
    replaceIconMacros (replaceIconMacros html) = replaceIconMacros html := by
  suffices haux : ∀ n (l : List Char), l.length ≤ n →
      gRep iconMatcher (gRep iconMatcher l) = gRep iconMatcher l by
    exact haux html.length html (Nat.le_refl _)
  intro n
  induction n with
  | zero =>
    intro l hl
    have : l = [] := List.length_eq_zero.mp (Nat.le_zero.mp hl)
    subst this
    rfl
  | succ n ih =>
    intro l hl
    cases l with
    | nil => rfl
    | cons c cs =>
      cases hm : iconMatcher (c :: cs) with
      | none =>
        rw [gRep_cons_none hm]
        have h2 : iconMatcher ([c] ++ gRep iconMatcher cs) = none := by
          apply iconMatcher_none_pres n cs
            (by simpa using Nat.le_of_succ_le_succ hl)
          exact hm
        have h2' : iconMatcher (c :: gRep iconMatcher cs) = none := by
          simpa using h2
        rw [gRep_cons_none h2']
        rw [ih cs (by simpa using Nat.le_of_succ_le_succ hl)]
      | some pr =>
        obtain ⟨rep, rest⟩ := pr
        obtain ⟨w, hw, hall, hshape, hrep⟩ := iconMatcher_sound hm
        have hrest : rest.length ≤ n := by
          have := iconMatcher_consumes _ _ _ hm
          simp only [List.length_cons] at this hl
          omega
        rw [gRep_cons_some iconMatcher_consumes hm, hrep]
        rw [passThrough_gRep _ (passThrough_iconRep ('f' :: 'a' :: w))]
        rw [ih rest hrest]

/-! ## Well-formed macro invocations: the extraction theorem (C2/C3) -/

/-- Brace-depth scan: processes the text from relative depth `d`,
incrementing on `{` and decrementing on `}`; `none` when the depth would
go below the starting level. -/
def balScan : List Char → Nat → Option Nat
  | [], d => some d
  | c :: cs, d =>
    if c = '{' then balScan cs (d + 1)
    else if c = '}' then
      match d with
      | 0 => none
      | e + 1 => balScan cs e
    else balScan cs d

/-- A correctly closed (possibly nested) brace text: the scan neither
dips below its starting depth nor ends above it. -/
def Balanced (a : List Char) : Prop := balScan a 0 = some 0

/-- One 3-argument macro invocation: arguments `a1`, `a2`, `a3` and the
separator texts `s1`, `s2` between the closing brace of one argument and
the opening brace of the next. -/
structure TrioSpec where
  a1 : List Char
  s1 : List Char
  a2 : List Char
  s2 : List Char
  a3 : List Char

/-- The invocation text after the opening brace of the first argument. -/
def TrioSpec.body (sp : TrioSpec) : List Char :=
  sp.a1 ++ '}' :: (sp.s1 ++ '{' :: (sp.a2 ++ '}' :: (sp.s2
    ++ '{' :: (sp.a3 ++ ['}']))))

/-- A source text made of `u0`, then for each list entry one complete
invocation of the macro followed by free text. -/
def buildText (name u0 : List Char) (xs : List (TrioSpec × List Char)) :
    List Char :=
  u0 ++ (xs.map (fun su => headerOf name ++ su.1.body ++ su.2)).flatten

/-- No occurrence of `p` starts inside `l`. -/
def noOccur (p l : List Char) : Prop :=
  ∀ i, i < l.length → isPre p (l.drop i) = false

/-- A usable macro name: non-empty and free of the header's own
delimiter characters. -/
def nameOk (name : List Char) : Prop :=
  name ≠ [] ∧ '\\' ∉ name ∧ '{' ∉ name ∧ '}' ∉ name

/-- Well-formedness of one invocation: balanced argument texts that do
not themselves contain a header occurrence, and separator texts without
braces or backslashes. -/
def specOk (name : List Char) (sp : TrioSpec) : Prop :=
  Balanced sp.a1 ∧ Balanced sp.a2 ∧ Balanced sp.a3
    ∧ noOccur (headerOf name) sp.a1 ∧ noOccur (headerOf name) sp.a2
    ∧ noOccur (headerOf name) sp.a3
    ∧ '{' ∉ sp.s1 ∧ '\\' ∉ sp.s1 ∧ '{' ∉ sp.s2 ∧ '\\' ∉ sp.s2

/-- Free text between and around invocations: no backslash, hence no
header occurrence, not even one spanning into the following text. -/
def gapOk (u : List Char) : Prop := '\\' ∉ u

theorem balScan_open (cs : List Char) (d : Nat) :
    balScan ('{' :: cs) d = balScan cs (d + 1) := rfl

theorem balScan_close (cs : List Char) (d : Nat) :
    balScan ('}' :: cs) (d + 1) = balScan cs d := rfl

theorem balScan_close_zero (cs : List Char) :
    balScan ('}' :: cs) 0 = none := rfl

theorem balScan_other {c : Char} (h1 : ¬ c = '{') (h2 : ¬ c = '}')
    (cs : List Char) (d : Nat) : balScan (c :: cs) d = balScan cs d := by
  simp [balScan, h1, h2]

theorem argPhase_open (cs : List Char) (d : Nat) (cur : List Char) :
    argPhase ('{' :: cs) d cur = argPhase cs (d + 1) ('{' :: cur) := rfl

theorem argPhase_close_deep (cs : List Char) (d : Nat) (cur : List Char)
    (hd : ¬ d ≤ 1) :
    argPhase ('}' :: cs) d cur = argPhase cs (d - 1) ('}' :: cur) := by
  simp [argPhase, hd]

theorem argPhase_close_one (cs : List Char) (cur : List Char) :
    argPhase ('}' :: cs) 1 cur = some (trimStr cur.reverse, cs) := rfl

theorem argPhase_other {c : Char} (h1 : ¬ c = '{') (h2 : ¬ c = '}')
    (cs : List Char) (d : Nat) (cur : List Char) :
    argPhase (c :: cs) d cur = argPhase cs d (c :: cur) := by
  simp [argPhase, h1, h2]

theorem argPhase_balanced :
    ∀ (a : List Char) (d e : Nat) (acc r : List Char),
      balScan a d = some e →
      argPhase (a ++ r) (d + 1) acc = argPhase r (e + 1) (a.reverse ++ acc) := by
  intro a
  induction a with
  | nil =>
    intro d e acc r h
    simp only [balScan, Option.some.injEq] at h
    subst h
    simp
  | cons c cs ih =>
    intro d e acc r h
    by_cases hc : c = '{'
    · subst hc
      rw [balScan_open] at h
      rw [List.cons_append, argPhase_open, ih (d + 1) e ('{' :: acc) r h]
      simp [List.append_assoc]
    · by_cases hc2 : c = '}'
      · subst hc2
        cases d with
        | zero =>
          rw [balScan_close_zero] at h
          cases h
        | succ d' =>
          rw [balScan_close] at h
          rw [List.cons_append, argPhase_close_deep _ _ _ (by omega)]
          have hsub : d' + 1 + 1 - 1 = d' + 1 := by omega
          rw [hsub, ih d' e ('}' :: acc) r h]
          simp [List.append_assoc]
      · rw [balScan_other hc hc2] at h
        rw [List.cons_append, argPhase_other hc hc2, ih d e (c :: acc) r h]
        simp [List.append_assoc]

theorem argPhase_closes {a : List Char} (ha : Balanced a) (r : List Char) :
    argPhase (a ++ '}' :: r) 1 [] = some (trimStr a, r) := by
  have h := argPhase_balanced a 0 0 [] ('}' :: r) ha
  simp only [Nat.zero_add] at h
  rw [h, argPhase_close_one]
  simp

theorem skipPhase_through {s : List Char} (hs : '{' ∉ s) (r : List Char) :
    skipPhase (s ++ '{' :: r) = some r := by
  induction s with
  | nil => simp [skipPhase]
  | cons c cs ih =>
    have hc : ¬ c = '{' := by
      intro hh
      exact hs (by simp [hh])
    simp only [List.cons_append, skipPhase, if_neg hc]
    exact ih (fun hh => hs (by simp [hh]))

theorem runInv_succ_eq (n : Nat) (rest : List Char) :
    runInv (n + 1) rest
      = match argPhase rest 1 [] with
        | none => none
        | some (arg, rem1) =>
          match skipPhase rem1 with
          | none => if n = 0 then some ([arg], rest.length) else none
          | some rem2 =>
            if n = 0 then some ([arg], rest.length - rem2.length)
            else
              match runInv n rem2 with
              | none => none
              | some (args, fm) =>
                some (arg :: args, (rest.length - rem2.length) + fm) := rfl

/-- On a well-formed invocation body the collection loop returns exactly
the three trimmed arguments (whatever the following text `r` is). -/
theorem runInv_body {name : List Char} {sp : TrioSpec}
    (h : specOk name sp) (r : List Char) :
    ∃ fm, runInv 3 (sp.body ++ r)
      = some ([trimStr sp.a1, trimStr sp.a2, trimStr sp.a3], fm) := by
  obtain ⟨hb1, hb2, hb3, _, _, _, hs1, _, hs2, _⟩ := h
  have hbody : sp.body ++ r
      = sp.a1 ++ '}' :: (sp.s1 ++ '{' :: (sp.a2 ++ '}' :: (sp.s2
          ++ '{' :: (sp.a3 ++ '}' :: r)))) := by
    simp [TrioSpec.body, List.append_assoc]
  -- innermost argument
  have h3 : ∃ fm3, runInv 1 (sp.a3 ++ '}' :: r)
      = some ([trimStr sp.a3], fm3) := by
    rw [show (1 : Nat) = 0 + 1 from rfl, runInv_succ_eq 0 (sp.a3 ++ '}' :: r)]
    rw [argPhase_closes hb3 r]
    dsimp only
    cases hskip : skipPhase r with
    | none => exact ⟨_, rfl⟩
    | some rem2 => exact ⟨_, rfl⟩
  obtain ⟨fm3, h3⟩ := h3
  have h2 : runInv 2 (sp.a2 ++ '}' :: (sp.s2 ++ '{' :: (sp.a3 ++ '}' :: r)))
      = some ([trimStr sp.a2, trimStr sp.a3],
          ((sp.a2 ++ '}' :: (sp.s2 ++ '{' :: (sp.a3 ++ '}' :: r))).length
            - (sp.a3 ++ '}' :: r).length) + fm3) := by
    rw [show (2 : Nat) = 1 + 1 from rfl,
      runInv_succ_eq 1 (sp.a2 ++ '}' :: (sp.s2 ++ '{' :: (sp.a3 ++ '}' :: r)))]
    rw [argPhase_closes hb2]
    dsimp only
    rw [skipPhase_through hs2]
    dsimp only
    rw [if_neg (by decide : ¬(1 : Nat) = 0)]
    rw [h3]
  have h1 : runInv 3 (sp.a1 ++ '}' :: (sp.s1 ++ '{' :: (sp.a2 ++ '}' :: (sp.s2
      ++ '{' :: (sp.a3 ++ '}' :: r)))))
      = some ([trimStr sp.a1, trimStr sp.a2, trimStr sp.a3],
          ((sp.a1 ++ '}' :: (sp.s1 ++ '{' :: (sp.a2 ++ '}' :: (sp.s2
              ++ '{' :: (sp.a3 ++ '}' :: r))))).length
            - (sp.a2 ++ '}' :: (sp.s2 ++ '{' :: (sp.a3 ++ '}' :: r))).length)
          + ((sp.a2 ++ '}' :: (sp.s2 ++ '{' :: (sp.a3 ++ '}' :: r))).length
              - (sp.a3 ++ '}' :: r).length + fm3)) := by
    rw [show (3 : Nat) = 2 + 1 from rfl,
      runInv_succ_eq 2 (sp.a1 ++ '}' :: (sp.s1 ++ '{' :: (sp.a2 ++ '}' :: (sp.s2
        ++ '{' :: (sp.a3 ++ '}' :: r)))))]
    rw [argPhase_closes hb1]
    dsimp only
    rw [skipPhase_through hs1]
    dsimp only
    rw [if_neg (by decide : ¬(2 : Nat) = 0)]
    rw [h2]
  exact ⟨_, by rw [hbody]; exact h1⟩

theorem parseLatexMacroF_succ (hdr : List Char) (n fuel : Nat) (c : Char)
    (cs : List Char) :
    parseLatexMacroF hdr n (fuel + 1) (c :: cs)
      = if isPre hdr (c :: cs) then
          match runInv n ((c :: cs).drop hdr.length) with
          | some (args, fmLen) =>
            ((hdr ++ ((c :: cs).drop hdr.length).take fmLen) :: args)
              :: parseLatexMacroF hdr n fuel ((c :: cs).drop hdr.length)
          | none => parseLatexMacroF hdr n fuel ((c :: cs).drop hdr.length)
        else parseLatexMacroF hdr n fuel cs := rfl

theorem parseLatexMacroF_fuel {hdr : List Char} (hh : hdr ≠ []) (n : Nat) :
    ∀ fuel (t : List Char), t.length ≤ fuel →
      parseLatexMacroF hdr n fuel t = parseLatexMacroF hdr n t.length t := by
  intro fuel
  induction fuel using Nat.strong_induction_on with
  | _ fuel ih =>
    intro t ht
    cases t with
    | nil =>
      cases fuel with
      | zero => rfl
      | succ f => rfl
    | cons c cs =>
      cases fuel with
      | zero => simp at ht
      | succ f =>
        have hcs : cs.length ≤ f := by simpa using ht
        have hlen1 : 1 ≤ hdr.length := by
          cases hdr with
          | nil => exact absurd rfl hh
          | cons a as => simp
        rw [List.length_cons, parseLatexMacroF_succ hdr n f c cs,
          parseLatexMacroF_succ hdr n cs.length c cs]
        have hrest : ((c :: cs).drop hdr.length).length ≤ cs.length := by
          rw [List.length_drop]
          simp only [List.length_cons]
          omega
        by_cases hp : isPre hdr (c :: cs) = true
        · simp only [if_pos hp]
          cases hr : runInv n ((c :: cs).drop hdr.length) with
          | none =>
            dsimp only
            rw [ih f (Nat.lt_succ_self f) _ (le_trans hrest hcs),
              ih cs.length (Nat.lt_succ_of_le hcs) _ hrest]
          | some pr =>
            obtain ⟨args, fmLen⟩ := pr
            dsimp only
            rw [ih f (Nat.lt_succ_self f) _ (le_trans hrest hcs),
              ih cs.length (Nat.lt_succ_of_le hcs) _ hrest]
        · simp only [if_neg hp]
          rw [ih f (Nat.lt_succ_self f) _ hcs]

/-- No occurrence of `p` starts inside the initial segment `l` of
`l ++ t` (occurrences may inspect the following text `t`). -/
def OccFreeP (p l t : List Char) : Prop :=
  ∀ i, i < l.length → isPre p ((l ++ t).drop i) = false

theorem occFree_nil {p t : List Char} : OccFreeP p [] t := by
  intro i hi
  simp at hi

theorem occFree_append {p l1 l2 t : List Char}
    (h1 : OccFreeP p l1 (l2 ++ t)) (h2 : OccFreeP p l2 t) :
    OccFreeP p (l1 ++ l2) t := by
  intro i hi
  rw [List.append_assoc]
  by_cases hc : i < l1.length
  · exact h1 i hc
  · obtain ⟨j, rfl⟩ : ∃ j, i = l1.length + j :=
      ⟨i - l1.length, by omega⟩
    rw [List.drop_append j]
    have hj : j < l2.length := by
      simp only [List.length_append] at hi
      omega
    exact h2 j hj

theorem occFree_cons_bs {name : List Char} {c : Char} (hc : ¬ c = '\\')
    {l t : List Char} (h : OccFreeP (headerOf name) l t) :
    OccFreeP (headerOf name) (c :: l) t := by
  intro i hi
  cases i with
  | zero =>
    have hcc : (('\\' : Char) == c) = false := by
      simp only [beq_eq_false_iff_ne, ne_eq]
      intro h2
      exact hc h2.symm
    simp only [List.drop_zero, List.cons_append, headerOf, isPre, hcc,
      Bool.false_and]
  | succ j =>
    have hj : j < l.length := by simpa using hi
    simp only [List.cons_append, List.drop_succ_cons]
    exact h j hj

theorem occFree_noBS {name u : List Char} (hu : '\\' ∉ u) (t : List Char) :
    OccFreeP (headerOf name) u t := by
  induction u with
  | nil => exact occFree_nil
  | cons c cs ih =>
    have hc : ¬ c = '\\' := fun h => hu (by simp [h])
    exact occFree_cons_bs hc (ih (fun h => hu (List.mem_cons_of_mem _ h)))

theorem isPre_append_cases {p w t : List Char} (h : isPre p (w ++ t) = true) :
    isPre p w = true ∨ ∃ z, p = w ++ z ∧ isPre z t = true := by
  obtain ⟨r, hr⟩ := isPre_iff.mp h
  rcases List.append_eq_append_iff.mp hr with ⟨z, hz1, hz2⟩ | ⟨q, hq1, hq2⟩
  · exact Or.inr ⟨z, hz1, isPre_iff.mpr ⟨r, hz2⟩⟩
  · exact Or.inl (isPre_iff.mpr ⟨q, hq1⟩)

theorem isPre_cons_head {c d : Char} {q t : List Char}
    (h : isPre (c :: q) (d :: t) = true) : c = d := by
  simp only [isPre, Bool.and_eq_true, beq_iff_eq] at h
  exact h.1

theorem isPre_self (p : List Char) : isPre p p = true := by
  have := isPre_append_self p []
  simpa using this

/-- Inside an argument text free of header occurrences, no header
occurrence can arise even with the argument's closing brace and the
following text appended, because the header contains no closing brace. -/
theorem occFree_arg {name a : List Char} (hn : nameOk name)
    (hna : noOccur (headerOf name) a) (t : List Char) :
    OccFreeP (headerOf name) a ('}' :: t) := by
  intro i hi
  cases hT : isPre (headerOf name) ((a ++ '}' :: t).drop i) with
  | false => rfl
  | true =>
    exfalso
    have hdrop : (a ++ '}' :: t).drop i = a.drop i ++ '}' :: t :=
      List.drop_append_of_le_length (le_of_lt hi)
    rw [hdrop] at hT
    rcases isPre_append_cases hT with h1 | ⟨z, hz, hzt⟩
    · have := hna i hi
      rw [h1] at this
      cases this
    · cases z with
      | nil =>
        rw [List.append_nil] at hz
        have h2 := hna i hi
        rw [← hz] at h2
        have h3 := isPre_self (headerOf name)
        rw [h2] at h3
        cases h3
      | cons z0 zs =>
        have hz0 : z0 = '}' := isPre_cons_head hzt
        have hmem : '}' ∈ headerOf name := by
          rw [hz, hz0]
          simp
        obtain ⟨_, _, _, hrb⟩ := hn
        simp only [headerOf, List.mem_cons, List.mem_append,
          List.mem_singleton] at hmem
        rcases hmem with h | h | h
        · exact absurd h (by decide)
        · exact hrb h
        · exact absurd h (by decide)

/-- No header occurrence starts anywhere inside a well-formed invocation
body, whatever text follows it. -/
theorem occFree_body {name : List Char} {sp : TrioSpec} (hn : nameOk name)
    (hs : specOk name sp) (t : List Char) :
    OccFreeP (headerOf name) sp.body t := by
  obtain ⟨_, _, _, hna1, hna2, hna3, hb1, hbs1, hb2, hbs2⟩ := hs
  have h3 : OccFreeP (headerOf name) (sp.a3 ++ ['}']) t := by
    apply occFree_append
    · exact occFree_arg hn hna3 t
    · exact occFree_cons_bs (by decide) occFree_nil
  have h2 : OccFreeP (headerOf name) (sp.s2 ++ '{' :: (sp.a3 ++ ['}'])) t := by
    apply occFree_append
    · exact occFree_noBS hbs2 _
    · exact occFree_cons_bs (by decide) h3
  have h1 : OccFreeP (headerOf name)
      (sp.a2 ++ '}' :: (sp.s2 ++ '{' :: (sp.a3 ++ ['}']))) t := by
    apply occFree_append
    · exact occFree_arg hn hna2 _
    · exact occFree_cons_bs (by decide) h2
  have h0 : OccFreeP (headerOf name)
      (sp.s1 ++ '{' :: (sp.a2 ++ '}' :: (sp.s2 ++ '{' :: (sp.a3 ++ ['}'])))) t := by
    apply occFree_append
    · exact occFree_noBS hbs1 _
    · exact occFree_cons_bs (by decide) h1
  show OccFreeP (headerOf name)
    (sp.a1 ++ '}' :: (sp.s1 ++ '{' :: (sp.a2 ++ '}' :: (sp.s2
      ++ '{' :: (sp.a3 ++ ['}']))))) t
  apply occFree_append
  · exact occFree_arg hn hna1 _
  · exact occFree_cons_bs (by decide) h0

/-- The scan passes over an occurrence-free initial segment without
producing any tuple. -/
theorem parseLatexMacroF_skip {hdr : List Char} {n : Nat} :
    ∀ (w t : List Char), OccFreeP hdr w t →
      parseLatexMacroF hdr n (w ++ t).length (w ++ t)
        = parseLatexMacroF hdr n t.length t := by
  intro w
  induction w with
  | nil => intro t _; rfl
  | cons c cs ih =>
    intro t h
    have h0 : isPre hdr (c :: (cs ++ t)) = false := by
      have := h 0 (by simp)
      simpa using this
    rw [List.cons_append, List.length_cons, parseLatexMacroF_succ]
    rw [if_neg (by simp [h0])]
    apply ih
    intro i hi
    have := h (i + 1) (by simpa using Nat.succ_lt_succ hi)
    simpa using this

/-- At a header occurrence, one scan step consumes the header, runs the
argument collection on the remainder, and resumes just after the header. -/
theorem parseLatexMacroF_at_header (name : List Char) (n : Nat)
    (rest : List Char) :
    parseLatexMacroF (headerOf name) n (headerOf name ++ rest).length
        (headerOf name ++ rest)
      = match runInv n rest with
        | some (args, fmLen) =>
          ((headerOf name ++ rest.take fmLen) :: args)
            :: parseLatexMacroF (headerOf name) n rest.length rest
        | none => parseLatexMacroF (headerOf name) n rest.length rest := by
  have hne : headerOf name ≠ [] := by simp [headerOf]
  have h1 : headerOf name ++ rest = '\\' :: ((name ++ ['{']) ++ rest) := rfl
  have h2 : (headerOf name ++ rest).length
      = ((name ++ ['{']) ++ rest).length + 1 := rfl
  rw [h2, h1, parseLatexMacroF_succ]
  rw [if_pos (by rw [← h1]; exact isPre_append_self _ _)]
  have h3 : ('\\' :: ((name ++ ['{']) ++ rest)).drop (headerOf name).length
      = rest := by
    rw [← h1]
    exact List.drop_left _ _
  rw [h3]
  have h4 : rest.length ≤ ((name ++ ['{']) ++ rest).length := by
    rw [List.length_append]
    omega
  cases hr : runInv n rest with
  | none =>
    dsimp only
    rw [parseLatexMacroF_fuel hne n (((name ++ ['{']) ++ rest).length) rest h4]
  | some pr =>
    obtain ⟨args, fmLen⟩ := pr
    dsimp only
    rw [parseLatexMacroF_fuel hne n (((name ++ ['{']) ++ rest).length) rest h4]

/-- On a text made of occurrence-free gaps and well-formed invocations,
the extractor returns one tuple per invocation, in source order, whose
argument part is exactly the three trimmed argument texts. -/
theorem parse_buildText {name : List Char} (hn : nameOk name) :
    ∀ (xs : List (TrioSpec × List Char)) (u0 : List Char), '\\' ∉ u0 →
      (∀ su ∈ xs, specOk name su.1 ∧ gapOk su.2) →
      (parseLatexMacro name 3 (buildText name u0 xs)).map
          (fun tup => tup.drop 1)
        = xs.map (fun su =>
            [trimStr su.1.a1, trimStr su.1.a2, trimStr su.1.a3]) := by
  intro xs
  induction xs with
  | nil =>
    intro u0 hu0 _
    have hb : buildText name u0 [] = u0 ++ [] := by
      simp [buildText]
    simp only [parseLatexMacro]
    rw [hb, parseLatexMacroF_skip u0 [] (occFree_noBS hu0 [])]
    rfl
  | cons su xs ih =>
    obtain ⟨sp, u⟩ := su
    intro u0 hu0 hxs
    have hsp : specOk name sp := (hxs (sp, u) (by simp)).1
    have hu : '\\' ∉ u := (hxs (sp, u) (by simp)).2
    have hxs2 : ∀ su ∈ xs, specOk name su.1 ∧ gapOk su.2 :=
      fun su hsu => hxs su (by simp [hsu])
    have hT : buildText name u0 ((sp, u) :: xs)
        = u0 ++ (headerOf name ++ (sp.body ++ buildText name u xs)) := by
      simp [buildText, List.append_assoc]
    obtain ⟨fm, hrun⟩ := runInv_body hsp (buildText name u xs)
    simp only [parseLatexMacro] at ih ⊢
    rw [hT]
    rw [parseLatexMacroF_skip u0
      (headerOf name ++ (sp.body ++ buildText name u xs)) (occFree_noBS hu0 _)]
    rw [parseLatexMacroF_at_header name 3 (sp.body ++ buildText name u xs)]
    rw [hrun]
    dsimp only
    rw [parseLatexMacroF_skip sp.body (buildText name u xs)
      (occFree_body hn hsp _)]
    simp only [List.map_cons]
    rw [ih u hu hxs2]
    rfl

instance (a : List Char) : Decidable (Balanced a) := by
  unfold Balanced
  infer_instance

instance (p l : List Char) : Decidable (noOccur p l) := by
  unfold noOccur
  infer_instance

instance (name : List Char) : Decidable (nameOk name) := by
  unfold nameOk
  infer_instance

instance (name : List Char) (sp : TrioSpec) : Decidable (specOk name sp) := by
  unfold specOk
  infer_instance

instance (u : List Char) : Decidable (gapOk u) := by
  unfold gapOk
  infer_instance

/-- C2: for every well-formed source text made of backslash-free gaps
and exactly K complete invocations of a 3-argument macro, each with
correctly closed (possibly nested) braces, `parseLatexMacro` with
`argCount = 3` returns exactly K tuples, each carrying exactly the 3
trimmed argument strings of one invocation, ordered by the position of
the invocation in the source (first occurrence first). -/
theorem parseLatexMacro_wellformed_extraction {name : List Char}
    (hn : nameOk name) (xs : List (TrioSpec × List Char)) (u0 : List Char)
    (hu0 : gapOk u0) (hxs : ∀ su ∈ xs, specOk name su.1 ∧ gapOk su.2) :
    (parseLatexMacro name 3 (buildText name u0 xs)).length = xs.length
      ∧ (parseLatexMacro name 3 (buildText name u0 xs)).map
          (fun tup => tup.drop 1)
        = xs.map (fun su =>
            [trimStr su.1.a1, trimStr su.1.a2, trimStr su.1.a3]) := by
  have h := parse_buildText hn xs u0 hu0 hxs
  refine ⟨?_, h⟩
  have h2 := congrArg List.length h
  simpa using h2

theorem parseLatexMacro_wellformed_extraction_witness :
    (parseLatexMacro ['m'] 3 (buildText ['m'] ['x']
        [(⟨['a'], [], ['b'], [], ['c']⟩, ['y']),
         (⟨['d'], [' '], ['e'], [], [' ', 'f']⟩, [])])).length = 2
      ∧ (parseLatexMacro ['m'] 3 (buildText ['m'] ['x']
          [(⟨['a'], [], ['b'], [], ['c']⟩, ['y']),
           (⟨['d'], [' '], ['e'], [], [' ', 'f']⟩, [])])).map
            (fun tup => tup.drop 1)
        = [[['a'], ['b'], ['c']], [['d'], ['e'], ['f']]] := by
  have h := parseLatexMacro_wellformed_extraction
    (show nameOk ['m'] by decide)
    [(⟨['a'], [], ['b'], [], ['c']⟩, ['y']),
     (⟨['d'], [' '], ['e'], [], [' ', 'f']⟩, [])]
    ['x'] (by decide) (by decide)
  refine ⟨h.1.trans (by decide), h.2.trans (by decide)⟩

/-- C3: an argument whose text contains a nested brace group is
extracted with the nested braces reproduced verbatim: the tuple returned
for the invocation carries exactly the depth-balanced substring between
the outermost delimiting braces — nested group included, character for
character — with only surrounding whitespace removed by trim. -/
theorem parseLatexMacro_nested_verbatim {name pre mid post : List Char}
    (hn : nameOk name) (sp : TrioSpec) (u0 u : List Char)
    (hu0 : gapOk u0) (hu : gapOk u)
    (ha1 : sp.a1 = pre ++ '{' :: (mid ++ '}' :: post))
    (hs : specOk name sp) :
    (parseLatexMacro name 3 (buildText name u0 [(sp, u)])).map
        (fun tup => tup.drop 1)
      = [[trimStr (pre ++ '{' :: (mid ++ '}' :: post)),
          trimStr sp.a2, trimStr sp.a3]] := by
  have h := parse_buildText hn [(sp, u)] u0 hu0 (by
    intro su hsu
    simp only [List.mem_singleton] at hsu
    subst hsu
    exact ⟨hs, hu⟩)
  rw [h]
  simp [ha1]

theorem parseLatexMacro_nested_verbatim_witness :
    (parseLatexMacro ['m'] 3 (buildText ['m'] []
        [(⟨"outer ".toList ++ '{' :: ("inner".toList ++ '}' :: " text".toList),
           [], ['b'], [], ['c']⟩, [])])).map (fun tup => tup.drop 1)
      = [["outer \x7binner\x7d text".toList, ['b'], ['c']]] := by
  have h := parseLatexMacro_nested_verbatim (show nameOk ['m'] by decide)
    ⟨"outer ".toList ++ '{' :: ("inner".toList ++ '}' :: " text".toList),
      [], ['b'], [], ['c']⟩ [] [] (by decide) (by decide) rfl (by decide)
  exact h.trans (by decide)

/-! ## The remaining pipeline passes (html-helpers.mjs,
html-transformers.mjs, html-template.mjs) and the conversion entry point
(converter.mjs) -/

/-- Fuelled first-occurrence replacement: the non-global JS
`String.replace`, copying characters until the first position where the
matcher fires, then appending the replacement and the rest unchanged. -/
def rep1F (m : List Char → Option (List Char × List Char)) :
    Nat → List Char → List Char
  | _, [] => []
  | 0, t => t
  | fuel + 1, c :: cs =>
    match m (c :: cs) with
    | some (rep, rest) => rep ++ rest
    | none => c :: rep1F m fuel cs

/-- First-occurrence replacement with adequate fuel. -/
def rep1 (m : List Char → Option (List Char × List Char)) (t : List Char) :
    List Char :=
  rep1F m t.length t

/-- Matcher for `\s+` → a single space. -/
def wsRunMatcher (t : List Char) : Option (List Char × List Char) :=
  let run := t.takeWhile isWS
  if run.isEmpty then none else some ([' '], t.drop run.length)

/-- Matcher for `\s{2,}` → a single space. -/
def multiWsMatcher (t : List Char) : Option (List Char × List Char) :=
  let run := t.takeWhile isWS
  if 2 ≤ run.length then some ([' '], t.drop run.length) else none

/-- Matcher for `\s*--\s*` → ` – ` (an en dash between single spaces):
greedy whitespace on both sides of the literal double hyphen. -/
def dashRangeMatcher (t : List Char) : Option (List Char × List Char) :=
  let w := t.takeWhile isWS
  match dropPre "--".toList (t.drop w.length) with
  | none => none
  | some r => some (" – ".toList, r.dropWhile isWS)

/-- `cleanText` from html-helpers.mjs.  (The separator replacement text
reproduces the two characters `Â·` present in the source file.) -/
def cleanText (text : List Char) : List Char :=
  trimStr (gRep (litMatcher "class=\"href\"".toList [])
    (gRep (litMatcher "<span class=\"inline-math\">|</span>".toList
        "<span class=\"sep\">Â·</span>".toList)
      (gRep (litMatcher "<br class=\"linebreak\">".toList [' ']) text)))

/-- The `\maketitle` placeholder paragraph matched by `processTitleBlock`. -/
def maketitleLit : List Char :=
  "<p><span class=\"macro macro-maketitle\"></span></p>".toList

/-- The replacement title block of `processTitleBlock` (the `$`-directive
syntax of JS string replacements is not modelled; the metadata fields are
inserted literally). -/
def titleBlock (metadata : DocMetadata) : List Char :=
  "\n<h1 class=\"title\">".toList ++ metadata.title
    ++ "</h1>\n<div class=\"author\">".toList ++ metadata.author
    ++ "</div>\n<div class=\"date\">".toList ++ metadata.date
    ++ "</div>\n".toList

/-- `processTitleBlock` from html-transformers.mjs. -/
def processTitleBlock (html : List Char) (metadata : DocMetadata) :
    List Char :=
  if occursB maketitleLit html then
    rep1 (litMatcher maketitleLit (titleBlock metadata)) html
  else html

/-- `processAbstract` from html-transformers.mjs: inserts an Abstract
heading before the first abstract environment (`$1` keeps the div tag). -/
def processAbstract (html : List Char) : List Char :=
  rep1 (litMatcher "<div class=\"environment abstract\">".toList
    "<h2>Abstract</h2><div class=\"environment abstract\">".toList) html

/-- `replaceMathPipes` from html-transformers.mjs. -/
def replaceMathPipes (html : List Char) : List Char :=
  gRep (litMatcher "<span class=\"inline-math\">|</span>".toList
    "<span class=\"sep\">·</span>".toList) html

/-- `processHeadingListMacros` from html-transformers.mjs. -/
def processHeadingListMacros (html : List Char) : List Char :=
  gRep (litMatcher
      "<span class=\"macro macro-resumeHeadingListEnd\"></span>".toList
      "</div>".toList)
    (gRep (litMatcher
        "<span class=\"macro macro-resumeHeadingListStart\"></span>".toList
        "<div class=\"resume-heading-list\">".toList) html)

/-! ### Contact header conversion (`processContactHeader`) -/

/-- The opening of the tabular environment matched by
`processContactHeader`: `<div class="environment tabular(?:\*|x)">`
(the alternation tries `*` first, then `x`). -/
def tabularHead (t : List Char) : Option (List Char) :=
  match dropPre "<div class=\"environment tabular".toList t with
  | none => none
  | some r =>
    match dropPre "*\">".toList r with
    | some r2 => some r2
    | none => dropPre "x\">".toList r

/-- The lookahead `(?=\s*<h2>)` checked right after the closing
`</div>` of the contact tabular block. -/
def contactStop (l : List Char) : Bool :=
  match dropPre "</div>".toList l with
  | none => false
  | some r => isPre "<h2>".toList (r.dropWhile isWS)

/-- First match of the (non-global) contact header regex: returns the
text before the match, the lazy inner group, and the text after the
matched `</div>` (the lookahead text stays in the output). -/
def contactFind : List Char → Option (List Char × List Char × List Char)
  | [] => none
  | c :: cs =>
    match tabularHead (c :: cs) with
    | some r =>
      match lazyTo contactStop r with
      | some (inner, rest) => some ([], inner, rest.drop "</div>".length)
      | none =>
        match contactFind cs with
        | some (b, i, a) => some (c :: b, i, a)
        | none => none
    | none =>
      match contactFind cs with
      | some (b, i, a) => some (c :: b, i, a)
      | none => none

/-- A column-specifier character, the class `[Xlcrp@{}]`. -/
def isColChar (c : Char) : Bool :=
  c = 'X' || c = 'l' || c = 'c' || c = 'r' || c = 'p' || c = '@'
    || c = '{' || c = '}'

/-- Matcher for `>\s*[Xlcrp@{}]+(?=\s|<)` → a single space (the `>` is
part of the match and is consumed). -/
def colSpecMatcher (t : List Char) : Option (List Char × List Char) :=
  match dropPre ">".toList t with
  | none => none
  | some r =>
    let w := r.dropWhile isWS
    let run := w.takeWhile isColChar
    if run.isEmpty then none
    else
      match w.drop run.length with
      | [] => none
      | c :: cs =>
        if isWS c || c = '<' then some ([' '], c :: cs) else none

/-- Matcher for `<span class="vspace"[^>]*><\/span>` → a single space. -/
def vspaceMatcher (t : List Char) : Option (List Char × List Char) :=
  match dropPre "<span class=\"vspace\"".toList t with
  | none => none
  | some r =>
    let rest := r.dropWhile (fun c => !(c == '>'))
    match dropPre "></span>".toList rest with
    | some r2 => some ([' '], r2)
    | none => none

/-- The cleaned inner text of the contact block: newlines to spaces,
column specifiers, vspace spans and uline markers removed, whitespace
runs collapsed, trimmed, icons substituted. -/
def contactInnerClean (inner : List Char) : List Char :=
  replaceIconMacros (trimStr (gRep multiWsMatcher
    (gRep (litMatcher "<span class=\"macro macro-uline\"></span>".toList [])
      (gRep vspaceMatcher (gRep colSpecMatcher
        (inner.map (fun c => if c = '\n' then ' ' else c)))))))

/-- The contact name: group of the first
`<span class="textsize-Huge">([\s\S]*?)<\/span>` match, trimmed;
empty when there is no match. -/
def hugeName (innerClean : List Char) : List Char :=
  match firstSplit "<span class=\"textsize-Huge\">".toList innerClean with
  | none => []
  | some (_, r) =>
    match firstSplit "</span>".toList r with
    | none => []
    | some (grp, _) => trimStr grp

/-- The anchored replace `^[\s\S]*?<br class="linebreak">\s*` → empty:
everything through the first line break marker and following whitespace
is removed; without a marker the text is unchanged. -/
def afterNameOf (innerClean : List Char) : List Char :=
  match firstSplit "<br class=\"linebreak\">".toList innerClean with
  | none => innerClean
  | some (_, r) => r.dropWhile isWS

/-- Split of the remaining contact text at the first `&#x26;` entity:
`primary` is the text before it (trimmed) and `secondary` the text from
5 characters past the entity start (so the final `;` of the entity is
kept, to be stripped later), trimmed.  Without the entity everything is
primary. -/
def contactSplit (afterName : List Char) : List Char × List Char :=
  match firstSplit "&#x26;".toList afterName with
  | none => (afterName, [])
  | some (b, r) => (trimStr b, trimStr (';' :: r))

/-- The icon alternation `<i class="fas fa-(?:mobile|mobile-alt|phone)"><\/i>`
(ordered; returns the matched icon text and the rest). -/
def mobileIcon (t : List Char) : Option (List Char × List Char) :=
  match dropPre "<i class=\"fas fa-".toList t with
  | none => none
  | some r =>
    match dropPre "mobile\"></i>".toList r with
    | some r2 => some ("<i class=\"fas fa-mobile\"></i>".toList, r2)
    | none =>
      match dropPre "mobile-alt\"></i>".toList r with
      | some r2 => some ("<i class=\"fas fa-mobile-alt\"></i>".toList, r2)
      | none =>
        match dropPre "phone\"></i>".toList r with
        | some r2 => some ("<i class=\"fas fa-phone\"></i>".toList, r2)
        | none => none

/-- A character of the class `[+\d\s\-]`. -/
def isPhoneChar (c : Char) : Bool :=
  c = '+' || c.isDigit || isWS c || c = '-'

/-- Matcher for the mobile-number wrap
`(<i class="fas fa-(?:mobile|mobile-alt|phone)"><\/i>)\s*([+\d\s\-]+)` →
`<span class="contact-mobile">$1 $2</span>`.  Whitespace belongs to both
`\s*` and the phone class, so the greedy split puts the maximal
whitespace run into `\s*` unless the whole run is whitespace, in which
case backtracking leaves exactly one final character to the `+`-group. -/
def mobileMatcher (t : List Char) : Option (List Char × List Char) :=
  match mobileIcon t with
  | none => none
  | some (icon, r) =>
    let run := r.takeWhile isPhoneChar
    if run.isEmpty then none
    else
      let rest := r.drop run.length
      let w := run.takeWhile isWS
      let num :=
        if w.length = run.length then run.drop (run.length - 1)
        else run.drop w.length
      some ("<span class=\"contact-mobile\">".toList ++ icon ++ [' ']
        ++ num ++ "</span>".toList, rest)

/-- The anchored strip `^\s*[;:,\-–]\s*` → empty on the secondary
contact text. -/
def stripLeadSep (t : List Char) : List Char :=
  match t.dropWhile isWS with
  | [] => t
  | c :: r =>
    if c = ';' || c = ':' || c = ',' || c = '-' || c = '–' then
      r.dropWhile isWS
    else t

/-- The replacement block built by the `processContactHeader` callback. -/
def contactRep (inner : List Char) : List Char :=
  let innerClean := contactInnerClean inner
  let ps := contactSplit (afterNameOf innerClean)
  let primaryClean := gRep mobileMatcher (cleanText ps.1)
  let secondaryClean := stripLeadSep (cleanText ps.2)
  let alignmentClass :=
    if secondaryClean.isEmpty then "contact centered".toList
    else "contact dual".toList
  let rightColumn :=
    if secondaryClean.isEmpty then []
    else "<div class=\"contact-right\">".toList ++ secondaryClean
      ++ "</div>".toList
  "\n<div class=\"".toList ++ alignmentClass
    ++ "\">\n  <div class=\"contact-left\">\n    <div class=\"contact-name\">".toList
    ++ hugeName innerClean
    ++ "</div>\n    <div class=\"contact-links\">".toList ++ primaryClean
    ++ "</div>\n  </div>\n  ".toList ++ rightColumn ++ "\n</div>".toList

/-- `processContactHeader` from html-transformers.mjs. -/
def processContactHeader (html : List Char) : List Char :=
  match contactFind html with
  | none => html
  | some (before, inner, after) => before ++ contactRep inner ++ after

/-! ### Quad heading passes (`processQuadDetails`, `processQuadHeadings`)
and date-range cleanup -/

/-- The quad-details macro marker span. -/
def quadDetailsMarker : List Char :=
  "<span class=\"macro macro-resumeQuadHeadingDetails\"></span>".toList

/-- Date text cleanup: `--` ranges to en dashes, whitespace runs
collapsed, trimmed. -/
def cleanDateText (d : List Char) : List Char :=
  trimStr (gRep wsRunMatcher (gRep dashRangeMatcher d))

/-- Replacement emitted by the `processQuadDetails` callback for an
extracted tuple `[fullMatch, url, dateText, roleText]` (tuples from
`extractMacroMatches` always have four entries, so the `getD` defaults
are never read on pipeline inputs). -/
def quadDetailsRep (parsed : List (List Char)) : List Char :=
  "\n<div class=\"quad-details\">\n  <div class=\"row\"><div class=\"left\">".toList
    ++ hrefToAnchor (parsed.getD 1 []) true
    ++ "</div><div class=\"right\"><span class=\"date\">".toList
    ++ cleanDateText (parsed.getD 2 [])
    ++ "</span></div></div>\n  <div class=\"row\"><div class=\"left\"><em>".toList
    ++ trimStr (gRep wsRunMatcher (parsed.getD 3 []))
    ++ "</em></div><div class=\"right\"></div></div>\n</div>".toList

/-- Fuelled scan of the global quad-details regex (same lazy body and
lookahead alternatives as the trio pass); a missing tuple reproduces the
matched text unchanged. -/
def quadDetailsLoopF (ts : List (List (List Char))) :
    Nat → Nat → List Char → List Char
  | _, _, [] => []
  | 0, _, t => t
  | fuel + 1, idx, c :: cs =>
    if isPre quadDetailsMarker (c :: cs) then
      match lazyTo trioStop ((c :: cs).drop quadDetailsMarker.length) with
      | some (body, rest) =>
        match ts.get? idx with
        | none => (quadDetailsMarker ++ body)
            ++ quadDetailsLoopF ts fuel (idx + 1) rest
        | some parsed => quadDetailsRep parsed
            ++ quadDetailsLoopF ts fuel (idx + 1) rest
      | none => c :: quadDetailsLoopF ts fuel idx cs
    else c :: quadDetailsLoopF ts fuel idx cs

/-- `processQuadDetails` from html-transformers.mjs. -/
def processQuadDetails (html : List Char) (ts : List (List (List Char))) :
    List Char :=
  quadDetailsLoopF ts html.length 0 html

/-- After `\s*Present\s+` inside a left `<em>`: requires at least one
whitespace character after `Present`, then the lazy `([^<]*?)` runs to
the closing `</em>` (it cannot pass a `<`).  Returns the role remainder
group and the rest after `</em>`. -/
def presentAt (t : List Char) : Option (List Char × List Char) :=
  match dropPre "Present".toList (t.dropWhile isWS) with
  | none => none
  | some r =>
    let w := r.takeWhile isWS
    if w.isEmpty then none
    else
      let r2 := r.drop w.length
      let run := r2.takeWhile (fun c => !(c == '<'))
      match dropPre "</em>".toList (r2.drop run.length) with
      | some rest => some (run, rest)
      | none => none

/-- Lazy expansion of `[\s\S]*?<div class="left"><em>` with the
`Present` continuation: iterates over occurrences of the delimiter until
the continuation succeeds, accumulating the skipped body (the regex
backtracks into later occurrences when the continuation fails). -/
def leftEmScanF : Nat → List Char → Option (List Char × List Char × List Char)
  | 0, _ => none
  | fuel + 1, t =>
    match firstSplit "<div class=\"left\"><em>".toList t with
    | none => none
    | some (b, r) =>
      match presentAt r with
      | some (run, rest) => some (b, run, rest)
      | none =>
        match leftEmScanF fuel r with
        | none => none
        | some (b2, run, rest) =>
          some (b ++ "<div class=\"left\"><em>".toList ++ b2, run, rest)

/-- Lazy expansion of `([^<]*?–)\s*<\/span>` with the rest of the
`mergeDateRanges` pattern as continuation: walks the non-`<` run,
trying each en dash in turn; at each dash the greedy `\s*` and the
`</span>` literal are checked and the remaining pattern is attempted,
expanding to the next dash on failure. -/
def dashScan2F : Nat → List Char → List Char →
    Option (List Char × List Char × List Char × List Char)
  | 0, _, _ => none
  | _ + 1, _, [] => none
  | fuel + 1, acc, c :: cs =>
    if c = '<' then none
    else if c = '–' then
      match dropPre "</span>".toList (cs.dropWhile isWS) with
      | some r =>
        match leftEmScanF r.length r with
        | some (mid, run, rest) => some (acc ++ ['–'], mid, run, rest)
        | none => dashScan2F fuel (acc ++ ['–']) cs
      | none => dashScan2F fuel (acc ++ ['–']) cs
    else dashScan2F fuel (acc ++ [c]) cs

/-- Lazy expansion of `[\s\S]*?<span class="date">` with the dash part
as continuation: iterates over occurrences of the date span opener. -/
def dateSpanScanF : Nat → List Char →
    Option (List Char × List Char × List Char × List Char × List Char)
  | 0, _ => none
  | fuel + 1, t =>
    match firstSplit "<span class=\"date\">".toList t with
    | none => none
    | some (b, r) =>
      match dashScan2F r.length [] (r.dropWhile isWS) with
      | some (g2, mid, run, rest) => some (b, g2, mid, run, rest)
      | none =>
        match dateSpanScanF fuel r with
        | none => none
        | some (b2, g2, mid, run, rest) =>
          some (b ++ "<span class=\"date\">".toList ++ b2, g2, mid, run, rest)

/-- Fuelled scan of the global `mergeDateRanges` regex: each match is
rebuilt as `$1 ++ $2 ++ " Present" ++ $3 ++ $4 ++ $5`, moving a
`Present` that starts the role text onto the dangling date dash. -/
def mergeLoopF : Nat → List Char → List Char
  | _, [] => []
  | 0, t => t
  | fuel + 1, c :: cs =>
    if isPre "<div class=\"quad-details\">".toList (c :: cs) then
      match dateSpanScanF (c :: cs).length
          ((c :: cs).drop "<div class=\"quad-details\">".length) with
      | some (b, g2, mid, run, rest) =>
        ("<div class=\"quad-details\">".toList ++ b
            ++ "<span class=\"date\">".toList)
          ++ g2 ++ " Present".toList
          ++ ("</span>".toList ++ mid ++ "<div class=\"left\"><em>".toList)
          ++ run ++ "</em>".toList
          ++ mergeLoopF fuel rest
      | none => c :: mergeLoopF fuel cs
    else c :: mergeLoopF fuel cs

/-- `mergeDateRanges` from html-transformers.mjs. -/
def mergeDateRanges (html : List Char) : List Char :=
  mergeLoopF html.length html

/-- One skill row emitted by `processTechnicalSkills` for a
`\resumeSectionType` match `[fullMatch, label, sep, content]`. -/
def skillRow (s : List (List Char)) : List Char :=
  "\n<div class=\"skill-row\">\n  <div class=\"skill-label\"><strong>".toList
    ++ gRep (litMatcher "\\&".toList "&".toList) (trimStr (s.getD 1 []))
    ++ "</strong></div>\n  <div class=\"skill-sep\">".toList
    ++ trimStr (s.getD 2 [])
    ++ "</div>\n  <div class=\"skill-content\">".toList
    ++ trimStr (s.getD 3 [])
    ++ "</div>\n</div>".toList

/-- Matcher for `<h2>Technical Skills<\/h2>[\s\S]*?(?=<h2>)`, replaced
by the heading followed by the assembled rows (non-global). -/
def techSkillsMatcher (rows : List Char) (t : List Char) :
    Option (List Char × List Char) :=
  match dropPre "<h2>Technical Skills</h2>".toList t with
  | none => none
  | some r =>
    match lazyTo (fun l => isPre "<h2>".toList l) r with
    | none => none
    | some (_, rest) =>
      some ("<h2>Technical Skills</h2><div class=\"resume-heading-list\">".toList
        ++ rows ++ "</div>\n".toList, rest)

/-- `processTechnicalSkills` from html-transformers.mjs. -/
def processTechnicalSkills (html : List Char)
    (sectionTypeMatches : List (List (List Char))) : List Char :=
  rep1 (techSkillsMatcher ((sectionTypeMatches.map skillRow).flatten)) html

/-- The quad-heading macro marker span. -/
def quadHeadingMarker : List Char :=
  "<span class=\"macro macro-resumeQuadHeading\"></span>".toList

/-- The lookahead `(?=(<ul|<span|<\/div|<\/p|$))` of the quad-heading
pass: the trio alternatives plus the end of the string. -/
def quadStop (l : List Char) : Bool :=
  trioStop l || l.isEmpty

/-- Replacement emitted by the `processQuadHeadings` callback for a
tuple `[fullMatch, uni, loc, degree, dateRange]`. -/
def quadHeadingRep (parsed : List (List Char)) : List Char :=
  "\n<div class=\"quad\">\n  <div class=\"row\"><div class=\"left\"><strong>".toList
    ++ trimStr (parsed.getD 1 [])
    ++ "</strong></div><div class=\"right\">".toList
    ++ trimStr (parsed.getD 2 [])
    ++ "</div></div>\n  <div class=\"row\"><div class=\"left\"><em>".toList
    ++ trimStr (parsed.getD 3 [])
    ++ "</em></div><div class=\"right\"><em>".toList
    ++ cleanDateText (parsed.getD 4 [])
    ++ "</em></div></div>\n</div>".toList

/-- Fuelled scan of the global quad-heading regex; a missing or short
tuple (`!parsed || parsed.length < 5`) reproduces the matched text
unchanged. -/
def quadHeadingLoopF (ts : List (List (List Char))) :
    Nat → Nat → List Char → List Char
  | _, _, [] => []
  | 0, _, t => t
  | fuel + 1, idx, c :: cs =>
    if isPre quadHeadingMarker (c :: cs) then
      match lazyTo quadStop ((c :: cs).drop quadHeadingMarker.length) with
      | some (body, rest) =>
        match ts.get? idx with
        | none => (quadHeadingMarker ++ body)
            ++ quadHeadingLoopF ts fuel (idx + 1) rest
        | some parsed =>
          if parsed.length < 5 then
            (quadHeadingMarker ++ body)
              ++ quadHeadingLoopF ts fuel (idx + 1) rest
          else quadHeadingRep parsed ++ quadHeadingLoopF ts fuel (idx + 1) rest
      | none => c :: quadHeadingLoopF ts fuel idx cs
    else c :: quadHeadingLoopF ts fuel idx cs

/-- `processQuadHeadings` from html-transformers.mjs. -/
def processQuadHeadings (html : List Char) (ts : List (List (List Char))) :
    List Char :=
  quadHeadingLoopF ts html.length 0 html

/-! ### Paragraph-wrapper cleanup and final cleanups -/

/-- Try an ordered list of literal alternatives at the current position
(a regex alternation of plain literals): the first that matches wins. -/
def firstAlt : List (List Char) → List Char → Option (List Char × List Char)
  | [], _ => none
  | p :: ps, t =>
    match dropPre p t with
    | some rest => some (p, rest)
    | none => firstAlt ps t

/-- Matcher for `⟨head⟩\s*(⟨alt₁⟩|…)` → `$1`: the head literal and the
whitespace are dropped, the matched alternative is kept. -/
def seqLitMatcher (a : List Char) (alts : List (List Char))
    (t : List Char) : Option (List Char × List Char) :=
  match dropPre a t with
  | none => none
  | some r => firstAlt alts (r.dropWhile isWS)

/-- Matcher for `(⟨a⟩)\s*<\/p>` → `$1`: the closing paragraph tag and
the whitespace are dropped, the leading literal is kept. -/
def tailPMatcher (a : List Char) (t : List Char) :
    Option (List Char × List Char) :=
  match dropPre a t with
  | none => none
  | some r =>
    match dropPre "</p>".toList (r.dropWhile isWS) with
    | some rest => some (a, rest)
    | none => none

/-- Tail of the orphaned-trio cleanup after `<div class="trio-tech">`:
the lazy `[\s\S]*?<\/div>` tries each `</div>` occurrence, followed by
`\s*<div class="trio-link">` and a second lazy run to the next
`</div>`; on failure the first lazy expands to the next occurrence.
Returns the rest after the final `</div>`. -/
def trioTechScanF : Nat → List Char → Option (List Char)
  | 0, _ => none
  | fuel + 1, t =>
    match firstSplit "</div>".toList t with
    | none => none
    | some (_, r) =>
      match dropPre "<div class=\"trio-link\">".toList (r.dropWhile isWS) with
      | some r2 =>
        match firstSplit "</div>".toList r2 with
        | some (_, r3) => some r3
        | none => trioTechScanF fuel r
      | none => trioTechScanF fuel r

/-- Matcher for the (non-global) orphaned-trio cleanup
`(<\/div>\s*<\/div>\s*)<div class="trio-tech">[\s\S]*?<\/div>\s*<div class="trio-link">[\s\S]*?<\/div>`
→ `$1`. -/
def trioTechMatcher (t : List Char) : Option (List Char × List Char) :=
  match dropPre "</div>".toList t with
  | none => none
  | some r =>
    let w1 := r.takeWhile isWS
    match dropPre "</div>".toList (r.drop w1.length) with
    | none => none
    | some r2 =>
      let w2 := r2.takeWhile isWS
      match dropPre "<div class=\"trio-tech\">".toList (r2.drop w2.length) with
      | none => none
      | some r3 =>
        match trioTechScanF r3.length r3 with
        | none => none
        | some rest =>
          some ("</div>".toList ++ w1 ++ "</div>".toList ++ w2, rest)

/-- `cleanupParagraphWrappers` from html-transformers.mjs: the eight
replacements in source order. -/
def cleanupParagraphWrappers (html : List Char) : List Char :=
  rep1 trioTechMatcher
    (gRep (seqLitMatcher "</p>".toList ["<div class=\"trio\">".toList])
      (gRep (tailPMatcher "</div>".toList)
        (gRep (seqLitMatcher "<p>".toList
            ["<div class=\"contact\">".toList, "<div class=\"trio\">".toList,
              "<div class=\"quad\">".toList,
              "<div class=\"quad-details\">".toList])
          (gRep (tailPMatcher "</div>".toList)
            (gRep (seqLitMatcher "<p>".toList
                ["<div class=\"resume-heading-list\">".toList])
              (gRep (tailPMatcher "</ul>".toList)
                (gRep (seqLitMatcher "<p>".toList
                    ["<ul class=\"resume-items\">".toList]) html)))))))

/-- Matcher for `(\d+)%([a-zA-Z])` → `$1% $2`. -/
def pctMatcher (t : List Char) : Option (List Char × List Char) :=
  let d := t.takeWhile Char.isDigit
  if d.isEmpty then none
  else
    match dropPre "%".toList (t.drop d.length) with
    | none => none
    | some r =>
      match r with
      | [] => none
      | c :: rest =>
        if c.isAlpha then some (d ++ ['%', ' ', c], rest) else none

/-- Matcher for `<a href="(https?:\/\/[^"]+)"` → the same link opening
with `target="_blank" rel="noopener noreferrer"` appended. -/
def hrefUrlMatcher (t : List Char) : Option (List Char × List Char) :=
  match dropPre "<a href=\"http".toList t with
  | none => none
  | some r =>
    let sch :=
      match dropPre "s://".toList r with
      | some x => some ("https://".toList, x)
      | none =>
        match dropPre "://".toList r with
        | some x => some ("http://".toList, x)
        | none => none
    match sch with
    | none => none
    | some (scheme, r2) =>
      let u := r2.takeWhile (fun c => !(c == '"'))
      if u.isEmpty then none
      else
        match dropPre "\"".toList (r2.drop u.length) with
        | none => none
        | some rest =>
          some ("<a href=\"".toList ++ scheme ++ u
            ++ "\" target=\"_blank\" rel=\"noopener noreferrer\"".toList, rest)

/-- `applyFinalCleanups` from html-transformers.mjs: the six global
replacements in source order. -/
def applyFinalCleanups (html : List Char) : List Char :=
  gRep (litMatcher
      "target=\"_blank\" rel=\"noopener noreferrer\" target=\"_blank\" rel=\"noopener noreferrer\"".toList
      "target=\"_blank\" rel=\"noopener noreferrer\"".toList)
    (gRep hrefUrlMatcher
      (gRep (litMatcher "<a  href=".toList "<a href=".toList)
        (gRep (litMatcher "class=\"href\"".toList [])
          (gRep (litMatcher
              "<span class=\"macro macro-uline\"></span>Source Code</a>".toList
              [])
            (gRep pctMatcher html)))))

/-! ### Macro match extraction (`extractMacroMatches`, latex-parser.mjs) -/

/-- One attempt of the regex
`\\resumeSectionType\{([^}]*)\}\{([^}]*)\}\{([^}]*)\}` at the current
position (each group is a maximal, possibly empty, run of non-`}`
characters).  Returns `[fullMatch, $1, $2, $3]` and the rest. -/
def sectionTypeAt (t : List Char) : Option (List (List Char) × List Char) :=
  match dropPre "\\resumeSectionType\x7b".toList t with
  | none => none
  | some r =>
    let a := r.takeWhile (fun c => !(c == '}'))
    match dropPre "\x7d\x7b".toList (r.drop a.length) with
    | none => none
    | some r2 =>
      let b := r2.takeWhile (fun c => !(c == '}'))
      match dropPre "\x7d\x7b".toList (r2.drop b.length) with
      | none => none
      | some r3 =>
        let c := r3.takeWhile (fun c => !(c == '}'))
        match dropPre "\x7d".toList (r3.drop c.length) with
        | none => none
        | some rest =>
          some (["\\resumeSectionType\x7b".toList ++ a ++ "\x7d\x7b".toList
              ++ b ++ "\x7d\x7b".toList ++ c ++ "\x7d".toList,
            a, b, c], rest)

/-- The `matchAll` scan of the section-type regex: left to right,
resuming after each match. -/
def sectionTypeScanF : Nat → List Char → List (List (List Char))
  | _, [] => []
  | 0, _ => []
  | fuel + 1, c :: cs =>
    match sectionTypeAt (c :: cs) with
    | some (m, rest) => m :: sectionTypeScanF fuel rest
    | none => sectionTypeScanF fuel cs

/-- The macro match table of `extractMacroMatches`. -/
structure MacroMatches where
  trio : List (List (List Char))
  quadDetails : List (List (List Char))
  quadHeading : List (List (List Char))
  sectionType : List (List (List Char))

/-- `extractMacroMatches` from latex-parser.mjs. -/
def extractMacroMatches (latexContent : List Char) : MacroMatches :=
  { trio := parseLatexMacro "resumeTrioHeading".toList 3 latexContent
    quadDetails := parseLatexMacro "resumeQuadHeadingDetails".toList 3 latexContent
    quadHeading := parseLatexMacro "resumeQuadHeading".toList 4 latexContent
    sectionType := sectionTypeScanF latexContent.length latexContent }

/-- The CSS text returned by `getStyles` (html-template.mjs), verbatim. -/
def getStyles : List Char :=
  ("\n    html, body \x7b\n      background: #fff;\n      margin: 0;\n      padding: 0;\n    \x7d\n    b".toList
    ++ "ody \x7b\n      max-width: 950px;\n      width: 100%;\n      margin: 0 auto;\n      padding: 2rem;\n".toList
    ++ "      font-family: \"Source Sans 3\", system-ui, -apple-system, Segoe UI, Roboto, Arial, sans-serif;".toList
    ++ "\n      line-height: 1.6;\n      color: #000;\n      background: #fff;\n      box-sizing: border-box".toList
    ++ ";\n    \x7d\n    * \x7b box-sizing: border-box; \x7d\n    h1, h2, h3, h4, h5, h6 \x7b\n      margin-".toList
    ++ "top: 1.5em;\n      margin-bottom: 0.5em;\n      font-weight: bold;\n    \x7d\n    h1 \x7b font-size:".toList
    ++ " 5em; text-align: center; \x7d\n    h2 \x7b font-size: 1.5em; font-variant: small-caps; color: #1e3a".toList
    ++ "8a; border-bottom: 1px solid #1e3a8a; padding-bottom: 0.25rem; margin-top: 1.2em; \x7d\n    h3 \x7b ".toList
    ++ "font-size: 1.2em; \x7d\n    .author \x7b text-align: center; font-style: italic; margin: 1em 0; \x7d".toList
    ++ "\n    .date \x7b text-align: center; margin-bottom: 2em; \x7d\n    .title \x7b margin-top: 0.5em; ".toList
    ++ "\x7d\n    p \x7b margin: 1em 0; text-align: left; \x7d\n    .theorem, .lemma, .proposition, .corolla".toList
    ++ "ry \x7b\n      font-style: italic;\n      margin: 1em 0;\n      padding: 0.5em;\n      border-left: ".toList
    ++ "3px solid #333;\n    \x7d\n    .proof \x7b margin: 1em 0 1em 2em; \x7d\n    code, pre \x7b\n      fo".toList
    ++ "nt-family: \"Courier New\", monospace;\n      background: #f5f5f5;\n      padding: 0.2em 0.4em;\n   ".toList
    ++ " \x7d\n    pre \x7b padding: 1em; overflow-x: auto; \x7d\n    .equation \x7b margin: 1em 0; overflow".toList
    ++ "-x: auto; \x7d\n    a \x7b color: #0066cc; text-decoration: none; cursor: pointer; \x7d\n    a:hover".toList
    ++ " \x7b color: #004499; text-decoration: none; \x7d\n    a:visited \x7b color: #551a8b; text-decoratio".toList
    ++ "n: none; \x7d\n    .resume-items \x7b margin: 0.25rem 0 1rem 1.25rem; \x7d\n    .resume-items li ".toList
    ++ "\x7b margin: 0.25rem 0; \x7d\n    .resume-heading-list \x7b margin: 0.25rem 0 0.5rem 0; \x7d\n    .c".toList
    ++ "ontact \x7b display: grid; grid-template-columns: 1fr auto; align-items: center; gap: 0.75rem; margi".toList
    ++ "n-bottom: 1rem; \x7d\n    .contact.centered \x7b grid-template-columns: 1fr; text-align: center; ".toList
    ++ "\x7d\n    .contact.centered .contact-name \x7b justify-self: center; \x7d\n    .contact.centered .co".toList
    ++ "ntact-links \x7b justify-self: center; \x7d\n    .contact-name \x7b font-size: 1.75rem; font-weight:".toList
    ++ " 700; \x7d\n    .contact-links \x7b color: #111; display: flex; flex-wrap: wrap; justify-content: ce".toList
    ++ "nter; gap: 0.5rem; align-items: center; \x7d\n    .contact-links a \x7b display: inline-flex; align-".toList
    ++ "items: center; gap: 0.25rem; \x7d\n    .contact-links i \x7b \n      color: #1e3a8a; \n      font-st".toList
    ++ "yle: normal; \n      font-variant: normal; \n      text-rendering: auto; \n      -webkit-font-smooth".toList
    ++ "ing: antialiased; \n      display: inline-block;\n      font-family: \"Font Awesome 6 Free\", \"Font".toList
    ++ " Awesome 6 Brands\", \"Font Awesome 6 Pro\";\n      font-weight: 900;\n    \x7d\n    .contact-links ".toList
    ++ "i.fab \x7b font-family: \"Font Awesome 6 Brands\"; font-weight: 400; \x7d\n    .contact-links > i ".toList
    ++ "\x7b display: inline-flex; align-items: center; gap: 0.25rem; \x7d\n    .contact-sep \x7b color: #66".toList
    ++ "6; margin: 0 0.25rem; \x7d\n    .contact-mobile \x7b display: inline-flex; align-items: center; gap:".toList
    ++ " 0.25rem; \x7d\n    .contact-right \x7b text-align: right; white-space: nowrap; \x7d\n    .sep \x7b ".toList
    ++ "margin: 0 0.35rem; color: #666; \x7d\n    .trio \x7b display: grid; grid-template-columns: 1fr auto ".toList
    ++ "auto; gap: 0.5rem; align-items: baseline; margin: 0.25rem 0; position: relative; \x7d\n    .trio-tit".toList
    ++ "le \x7b justify-self: start; white-space: nowrap; \x7d\n    .trio-tech \x7b position: absolute; left".toList
    ++ ": 50%; transform: translateX(-50%); color: #374151; white-space: nowrap; \x7d\n    .trio-link \x7b j".toList
    ++ "ustify-self: end; white-space: nowrap; \x7d\n    .quad, .quad-details \x7b margin: 0.25rem 0; \x7d\n".toList
    ++ "    .row \x7b display: grid; grid-template-columns: 1fr auto; align-items: baseline; \x7d\n    .row ".toList
    ++ ".left, .row .right \x7b white-space: nowrap; \x7d\n    .row .right \x7b text-align: right; color: #3".toList
    ++ "74151; \x7d\n    .skill-row \x7b display: grid; grid-template-columns: 0.28fr 0.01fr 0.71fr; align-i".toList
    ++ "tems: start; gap: 0.5rem; \x7d\n    .skill-label \x7b font-weight: 700; \x7d\n    .skill-sep \x7b te".toList
    ++ "xt-align: center; \x7d\n    .macro \x7b display: none; \x7d\n    .converter-footer \x7b\n      margi".toList
    ++ "n-top: 3rem;\n      padding-top: 1rem;\n      border-top: 1px solid #e5e7eb;\n      text-align: cent".toList
    ++ "er;\n      font-size: 0.875rem;\n      color: #6b7280;\n    \x7d\n    .converter-footer a \x7b color".toList
    ++ ": #3b82f6; text-decoration: none; \x7d\n    .converter-footer a:hover \x7b text-decoration: underlin".toList
    ++ "e; \x7d\n\n    @media (max-width: 768px) \x7b\n      body \x7b padding: 1rem; \x7d\n      h1 \x7b fo".toList
    ++ "nt-size: 5em; \x7d\n      h2 \x7b font-size: 1.25em; margin-top: 1em; \x7d\n      .contact-name \x7b".toList
    ++ " font-size: 1.5rem; \x7d\n      .contact-links \x7b font-size: 0.9rem; gap: 0.4rem; \x7d\n      .tri".toList
    ++ "o \x7b grid-template-columns: 1fr; gap: 0.25rem; margin: 0.5rem 0; \x7d\n      .trio-title \x7b just".toList
    ++ "ify-self: start; white-space: normal; \x7d\n      .trio-tech \x7b position: static; transform: none;".toList
    ++ " left: auto; justify-self: start; white-space: normal; \x7d\n      .trio-link \x7b justify-self: sta".toList
    ++ "rt; white-space: normal; \x7d\n      .row \x7b grid-template-columns: 1fr; gap: 0.25rem; \x7d\n     ".toList
    ++ " .row .left, .row .right \x7b white-space: normal; \x7d\n      .row .right \x7b text-align: left; ".toList
    ++ "\x7d\n      .skill-row \x7b grid-template-columns: 1fr; gap: 0.25rem; \x7d\n      .skill-label \x7b ".toList
    ++ "margin-bottom: 0.25rem; \x7d\n      .skill-sep \x7b display: none; \x7d\n      .skill-content \x7b m".toList
    ++ "argin-left: 0; \x7d\n      .contact \x7b grid-template-columns: 1fr; gap: 0.5rem; \x7d\n      .conta".toList
    ++ "ct-right \x7b text-align: left; white-space: normal; \x7d\n    \x7d\n\n    @media (max-width: 480px)".toList
    ++ " \x7b\n      body \x7b padding: 0.75rem; \x7d\n      h1 \x7b font-size: 5em; \x7d\n      h2 \x7b fon".toList
    ++ "t-size: 1.1em; \x7d\n      .contact-name \x7b font-size: 1.25rem; \x7d\n      .contact-links \x7b fo".toList
    ++ "nt-size: 0.85rem; flex-direction: column; align-items: flex-start; \x7d\n      .resume-items \x7b ma".toList
    ++ "rgin-left: 1rem; \x7d\n    \x7d\n  ".toList)

/-- Literal segment of the `wrapInHtmlTemplate` document template. -/
def tpl1 : List Char :=
  ("<!DOCTYPE html>\n<html lang=\"en\">\n<head>\n    <meta charset=\"UTF-8\">\n    <meta name=\"viewport".toList
    ++ "\" content=\"width=device-width, initial-scale=1.0\">\n    <title>".toList)

/-- Literal segment of the `wrapInHtmlTemplate` document template. -/
def tpl2 : List Char :=
  ("</title>\n    <script id=\"MathJax-script\" async src=\"https://cdn.jsdelivr.net/npm/mathjax@3/es5/t".toList
    ++ "ex-mml-chtml.js\"></script>\n    <link rel=\"preconnect\" href=\"https://fonts.googleapis.com\">\n  ".toList
    ++ "  <link rel=\"preconnect\" href=\"https://fonts.gstatic.com\" crossorigin>\n    <link href=\"https:/".toList
    ++ "/fonts.googleapis.com/css2?family=Source+Sans+3:ital,wght@0,300..900;1,300..900&display=swap\" rel=".toList
    ++ "\"stylesheet\">\n    <!-- Font Awesome 6.5.2 - Primary CDN -->\n    <link rel=\"stylesheet\" href=\"".toList
    ++ "https://use.fontawesome.com/releases/v6.5.2/css/all.css\" integrity=\"sha384-B4dIYHKNBt8Bc12p+WXckhz".toList
    ++ "cICo0wtJAoU8YZTY5qE0Id1GSseTk6S+L3BlXeVIU\" crossorigin=\"anonymous\" />\n    <!-- Font Awesome Fall".toList
    ++ "back CDN -->\n    <link rel=\"stylesheet\" href=\"https://cdnjs.cloudflare.com/ajax/libs/font-awesom".toList
    ++ "e/6.5.2/css/all.min.css\" crossorigin=\"anonymous\" referrerpolicy=\"no-referrer\" />\n    <style>".toList)

/-- Literal segment of the `wrapInHtmlTemplate` document template. -/
def tpl3 : List Char := "</style>\n</head>\n<body>\n    ".toList

/-- Literal segment of the `wrapInHtmlTemplate` document template. -/
def tpl4 : List Char :=
  ("\n    <div class=\"converter-footer\">\n        Generated with <a href=\"https://github.com/dytsou/r".toList
    ++ "esume\" target=\"_blank\" rel=\"noopener\">LaTeX to HTML Converter</a><br>\n        \u00C2\u00A9 ".toList)

/-- Literal segment of the `wrapInHtmlTemplate` document template. -/
def tpl5 : List Char :=
  (" Tsou, Dong-You. Licensed under <a href=\"https://github.com/dytsou/resume/blob/main/LICENSE\" targe".toList
    ++ "t=\"_blank\" rel=\"noopener\">MIT License</a>\n    </div>\n</body>\n</html>".toList)

/-- `wrapInHtmlTemplate` from html-template.mjs: the document template
with the title, styles, content and current year spliced in (the impure
`new Date().getFullYear()` is passed in as `currentYear`). -/
def wrapInHtmlTemplate (currentYear : List Char) (content : List Char)
    (metadata : DocMetadata) : List Char :=
  tpl1 ++ metadata.title ++ tpl2 ++ getStyles ++ tpl3 ++ content ++ tpl4
    ++ currentYear ++ tpl5

/-! ### The conversion entry point (`convertLatexToHtml`, converter.mjs) -/

/-- The conversion result record
`{html, metadata, success, error}` returned by `convertLatexToHtml`. -/
structure ConversionResult where
  html : Option (List Char)
  metadata : Option DocMetadata
  success : Bool
  error : Option (List Char)

/-- `convertLatexToHtml` from converter.mjs.  Modelled from the spec:
the external `@unified-latex` chain `parse` → `unifiedLatexToHast` →
`toHtml` — third-party code, and the only step of the `try` block that
can throw — is abstracted as the `render` argument, holding either the
raw HTML it produces from `latexContent` or the thrown error's message;
the impure current date and year are passed in as `today` and
`currentYear`.  Every repository-defined pass of the `try` block is the
total function embedded above, and the `catch` branch returns the fixed
all-`null` failure record. -/
def convertLatexToHtml (render : Except (List Char) (List Char))
    (today currentYear : List Char) (latexContent : List Char) :
    ConversionResult :=
  match render with
  | Except.error e =>
    { html := none, metadata := none, success := false, error := some e }
  | Except.ok rawHtml =>
    let metadata := extractMetadata today latexContent
    let macros := extractMacroMatches latexContent
    let h1 := processTitleBlock rawHtml metadata
    let h2 := promoteHeadings h1
    let h3 := processAbstract h2
    let h4 := replaceMathPipes h3
    let h5 := processContactHeader h4
    let h6 := processTrioHeadings h5 macros.trio
    let h7 := processQuadDetails h6 macros.quadDetails
    let h8 := mergeDateRanges h7
    let h9 := processTechnicalSkills h8 macros.sectionType
    let h10 := processQuadHeadings h9 macros.quadHeading
    let h11 := processListMacros h10
    let h12 := processHeadingListMacros h11
    let h13 := cleanupParagraphWrappers h12
    let h14 := replaceIconMacros h13
    let h15 := applyFinalCleanups h14
    let styledHtml := wrapInHtmlTemplate currentYear h15 metadata
    { html := some styledHtml, metadata := some metadata, success := true,
      error := none }

/-- C9: for every input, the conversion result populates exactly one of
its two groups — on success the full wrapped HTML document and the
extracted metadata are present and the error is null; on failure the
error carries the underlying exception message and both the HTML and the
metadata are null, so no partial HTML is ever returned. -/
theorem convertLatexToHtml_result_exclusive
    (render : Except (List Char) (List Char))
    (today currentYear latexContent : List Char) :
    ((convertLatexToHtml render today currentYear latexContent).success = true
        ∧ (∃ h, (convertLatexToHtml render today currentYear latexContent).html
            = some h)
        ∧ (convertLatexToHtml render today currentYear latexContent).metadata
            = some (extractMetadata today latexContent)
        ∧ (convertLatexToHtml render today currentYear latexContent).error
            = none)
      ∨ ((convertLatexToHtml render today currentYear latexContent).success
            = false
        ∧ (convertLatexToHtml render today currentYear latexContent).html
            = none
        ∧ (convertLatexToHtml render today currentYear latexContent).metadata
            = none
        ∧ ∃ e, render = Except.error e
            ∧ (convertLatexToHtml render today currentYear latexContent).error
              = some e) := by
  cases render with
  | error e => exact Or.inr ⟨rfl, rfl, rfl, e, rfl, rfl⟩
  | ok rawHtml => exact Or.inl ⟨rfl, ⟨_, rfl⟩, rfl, rfl⟩

end Resume
